import Mathlib

/-!
Verification of `hub-scripts/makeTrackHubs.py` from the
`seqcode/pfal-chrom-states-trackhub` repository.

Modelling conventions.  Python strings are modelled as `List Char`.  The
`re` patterns used by the script are embedded as executable functions with
the same leftmost / non-greedy backtracking semantics, on the ASCII inputs
the script handles (file names).  Python sets of observed categorical
values are modelled as first-occurrence-deduplicated lists, and Python's
stable `sorted` as `List.insertionSort` with the corresponding key order.
A category's generation is modelled as a function from the list-file
content (`none` for a missing file) to the list of printed output lines.
-/

/-- Character list of a string literal. -/
def chars (s : String) : List Char := s.data

/-- ASCII lowercase of one character, embedding Python `str.lower` on the
ASCII range used by the script's file names. -/
def asciiLower (c : Char) : Char :=
  if 65 ≤ c.toNat ∧ c.toNat ≤ 90 then Char.ofNat (c.toNat + 32) else c

/-- ASCII uppercase of one character, embedding Python `str.upper`. -/
def asciiUpper (c : Char) : Char :=
  if 97 ≤ c.toNat ∧ c.toNat ≤ 122 then Char.ofNat (c.toNat - 32) else c

/-- Embeds Python `s.lower()`. -/
def lowerList (cs : List Char) : List Char := cs.map asciiLower

/-- Embeds Python `s.upper()`. -/
def upperList (cs : List Char) : List Char := cs.map asciiUpper

/-- ASCII decimal digit test, embedding the regex class `\d` on ASCII. -/
def isDigitChar (c : Char) : Bool := 48 ≤ c.toNat && c.toNat ≤ 57

/-- The regex character class `[a-zA-Z0-9]`. -/
def isAlnumChar (c : Char) : Bool :=
  isDigitChar c || (97 ≤ c.toNat && c.toNat ≤ 122) || (65 ≤ c.toNat && c.toNat ≤ 90)

/-- The regex character class `\w` restricted to ASCII: alphanumeric or
underscore. -/
def isWordChar (c : Char) : Bool := isAlnumChar c || c == '_'

/-- ASCII whitespace, embedding the default character set of Python
`str.strip` on ASCII input. -/
def isSpaceChar (c : Char) : Bool :=
  c == ' ' || c == '\t' || c == '\n' || c == '\r' || c == '\x0b' || c == '\x0c'

/-- Embeds Python `line.strip()`. -/
def stripChars (cs : List Char) : List Char :=
  ((cs.dropWhile isSpaceChar).reverse.dropWhile isSpaceChar).reverse

/-- Embeds `os.path.basename`: the part of the path after the last slash. -/
def basenameChars (cs : List Char) : List Char :=
  (cs.reverse.takeWhile (fun c => c != '/')).reverse

/-- Case-insensitive equality of two character lists (a literal pattern
piece under `re.IGNORECASE`). -/
def ciEqList : List Char → List Char → Bool
  | [], [] => true
  | a :: as, b :: bs => asciiLower a == asciiLower b && ciEqList as bs
  | _, _ => false

/-- Case-sensitive list prefix test. -/
def isPrefixCS : List Char → List Char → Bool
  | [], _ => true
  | _ :: _, [] => false
  | a :: as, b :: bs => a == b && isPrefixCS as bs

/-- Embeds Python `filename.endswith(suffix)` (exact, case-sensitive). -/
def endsWithCS (suffix cs : List Char) : Bool := isPrefixCS suffix.reverse cs.reverse

/-- Case-sensitive substring test, embedding Python `needle in hay`. -/
def containsSub (needle : List Char) : List Char → Bool
  | [] => needle.isEmpty
  | c :: rest => isPrefixCS needle (c :: rest) || containsSub needle rest

/-- Embeds the end-anchored regex tail `(.*?)SUF$`: the non-greedy capture
before the suffix.  The capture grows from the left until the remainder
equals the suffix case-insensitively; because the suffix is anchored at the
end of the input the accepting split is unique. -/
def capBeforeSuffixNG (suffix : List Char) : List Char → Option (List Char)
  | [] => if ciEqList [] suffix then some [] else none
  | c :: rest =>
    if ciEqList (c :: rest) suffix then some []
    else (capBeforeSuffixNG suffix rest).map (fun g => c :: g)

/-- Embeds the end-anchored regex tail `(.*)SUF$`: the greedy capture before
the suffix, preferring the longest capture first.  (Extensionally it agrees
with the non-greedy capture, since the end anchor fixes the split.) -/
def capBeforeSuffixGr (suffix : List Char) : List Char → Option (List Char)
  | [] => if ciEqList [] suffix then some [] else none
  | c :: rest =>
    match capBeforeSuffixGr suffix rest with
    | some g => some (c :: g)
    | none => if ciEqList (c :: rest) suffix then some [] else none

/-- Embeds the regex piece `(\d+hpi)` under `re.IGNORECASE`: a maximal
nonempty run of digits followed by `hpi` in any letter case, returning the
matched text and the rest.  (`\d+` is greedy; since `h` is not a digit no
shorter digit run can match, so the maximal run is the only candidate.) -/
def matchDigitsHpi (cs : List Char) : Option (List Char × List Char) :=
  let digits := cs.takeWhile isDigitChar
  let rest := cs.dropWhile isDigitChar
  if digits.isEmpty then none
  else
    match rest with
    | h :: p :: i :: rest2 =>
      if (h == 'h' || h == 'H') && (p == 'p' || p == 'P') && (i == 'i' || i == 'I')
      then some (digits ++ [h, p, i], rest2)
      else none
    | _ => none

/-- Embeds the signal-regex tail `(.*?)_(.*?)\.bw$` after the timepoint's
underscore: the non-greedy SOURCE capture stops at the first underscore
whose remainder lets the rest of the pattern match, backtracking past the
underscore otherwise. -/
def splitSourceId : List Char → Option (List Char × List Char)
  | [] => none
  | c :: rest =>
    if c == '_' then
      match capBeforeSuffixNG (chars ".bw") rest with
      | some sid => some ([], sid)
      | none =>
        match splitSourceId rest with
        | some (src, sid) => some (c :: src, sid)
        | none => none
    else
      match splitSourceId rest with
      | some (src, sid) => some (c :: src, sid)
      | none => none

/-- The part of the signal regex after the matched timepoint: a literal
underscore, then the source/id tail. -/
def matchAfterTp (tp : List Char) : List Char → Option (List Char × List Char × List Char)
  | [] => none
  | c :: rest2 =>
    if c == '_' then
      match splitSourceId rest2 with
      | some (src, sid) => some (tp, src, sid)
      | none => none
    else none

/-- Embeds `(\d+hpi)_` followed by the source/id tail of the signal regex. -/
def matchAfterMark (cs : List Char) : Option (List Char × List Char × List Char) :=
  match matchDigitsHpi cs with
  | none => none
  | some (tp, rest) => matchAfterTp tp rest

/-- Embeds `re.match(r"^(.*?)_(\d+hpi)_(.*?)_(.*?)\.bw$", filename,
re.IGNORECASE)` (makeTrackHubs.py line 104).  The non-greedy MARK capture
grows from the left, trying each underscore in turn until the rest of the
pattern matches. -/
def signalMatchAux (acc : List Char) : List Char → Option (List Char × List Char × List Char × List Char)
  | [] => none
  | c :: rest =>
    if c == '_' then
      match matchAfterMark rest with
      | some (tp, src, sid) => some (acc.reverse, tp, src, sid)
      | none => signalMatchAux (c :: acc) rest
    else signalMatchAux (c :: acc) rest

/-- The full signal filename regex match. -/
def signalMatch (cs : List Char) : Option (List Char × List Char × List Char × List Char) :=
  signalMatchAux [] cs

/-- Embeds `mark = match.group(1).replace('-', '.')` (line 110). -/
def normalizeMark (cs : List Char) : List Char :=
  cs.map (fun c => if c == '-' then '.' else c)

/-- One parsed signal record (makeTrackHubs.py lines 110-128). -/
structure SignalRecord where
  filename : List Char
  mark : List Char
  timepoint : List Char
  source : List Char
  sourceId : List Char
  markSourceKey : List Char
deriving DecidableEq

/-- Outcome of one line of the signal list file. -/
inductive SigLine
  | blank
  | badName (filename : List Char)
  | record (r : SignalRecord)
deriving DecidableEq

/-- Embeds one iteration of the signal first-pass loop (lines 98-128):
strip the line, skip it silently when empty, take the basename, and either
parse it into a record or report the filename as unparsable. -/
def signalClassifyLine (line : List Char) : SigLine :=
  let fullPath := stripChars line
  if fullPath.isEmpty then .blank
  else
    let filename := basenameChars fullPath
    match signalMatch filename with
    | none => .badName filename
    | some (g1, tp, src, sid) =>
      let mark := normalizeMark g1
      .record { filename := filename, mark := mark, timepoint := tp, source := src,
                sourceId := sid, markSourceKey := mark ++ '_' :: src }

/-- The records collected by the signal first pass, in input order. -/
def signalRecords (lines : List (List Char)) : List SignalRecord :=
  lines.filterMap (fun l =>
    match signalClassifyLine l with
    | .record r => some r
    | _ => none)

/-- The warning comment lines printed by the signal first pass (line 107). -/
def signalWarnings (lines : List (List Char)) : List (List Char) :=
  lines.filterMap (fun l =>
    match signalClassifyLine l with
    | .badName fn =>
      some (chars "# Warning: Could not parse signal filename: " ++ fn ++ chars ". Skipping.")
    | _ => none)

/-- Embeds `re.match(r"^(\d+hpi)", filename, re.IGNORECASE)` (line 43):
the leading timepoint token of a chromatin-state filename, the rest of the
name being ignored. -/
def chromMatch (cs : List Char) : Option (List Char) :=
  (matchDigitsHpi cs).map (fun p => p.1)

/-- Outcome of one line of the chromatin-state list file. -/
inductive ChromLine
  | blank
  | badName (filename : List Char)
  | record (subtrackId : List Char) (filename : List Char)
deriving DecidableEq

/-- Embeds one iteration of the chromatin-state loop body (lines 34-49). -/
def chromClassifyLine (line : List Char) : ChromLine :=
  let fullPath := stripChars line
  if fullPath.isEmpty then .blank
  else
    let filename := basenameChars fullPath
    match chromMatch filename with
    | none => .badName filename
    | some sid => .record sid filename

/-- View type of a TF track, dispatched on the filename suffix. -/
inductive ViewType
  | Signal
  | Peaks
deriving DecidableEq

/-- One parsed TF record (makeTrackHubs.py lines 284-305). -/
structure TFRecord where
  filename : List Char
  tfName : List Char
  timepoint : List Char
  sourceName : List Char
  sourceId : List Char
  viewType : ViewType
  factorSourceKey : List Char × List Char
deriving DecidableEq

/-- The part of the TF regexes after the SOURCE group: a literal underscore
and then the SOURCEID capture before the suffix. -/
def tfAfterSrc (cap : List Char → Option (List Char)) (tp src : List Char) :
    List Char → Option (List Char × List Char × List Char)
  | [] => none
  | c :: rest3 =>
    if c == '_' then
      match cap rest3 with
      | some sid => some (tp, src, sid)
      | none => none
    else none

/-- The part of the TF regexes after the matched timepoint: a literal
underscore, the SOURCE group `([a-zA-Z0-9]+)` as a maximal nonempty
alphanumeric run (greedy; shortening it cannot help because the next
character would still not be an underscore), and the rest. -/
def tfAfterTp (cap : List Char → Option (List Char)) (tp : List Char) :
    List Char → Option (List Char × List Char × List Char)
  | [] => none
  | c :: rest2 =>
    if c == '_' then
      (fun src =>
        if src.isEmpty then none
        else tfAfterSrc cap tp src (rest2.drop src.length))
        (rest2.takeWhile isAlnumChar)
    else none

/-- Embeds the TF regex tail after the TFNAME group's underscore:
`(\d+hpi)_([a-zA-Z0-9]+)_` and the SOURCEID capture. -/
def tfAfterMark (cap : List Char → Option (List Char)) (cs : List Char) :
    Option (List Char × List Char × List Char) :=
  match matchDigitsHpi cs with
  | none => none
  | some (tp, rest) => tfAfterTp cap tp rest

/-- Shared shape of the two TF regexes `^(.*?)_(\d+hpi)_([a-zA-Z0-9]+)_...$`:
the non-greedy TFNAME capture grows from the left, trying each underscore in
turn. -/
def tfMatchAux (cap : List Char → Option (List Char)) (acc : List Char) :
    List Char → Option (List Char × List Char × List Char × List Char)
  | [] => none
  | c :: rest =>
    if c == '_' then
      match tfAfterMark cap rest with
      | some (tp, src, sid) => some (acc.reverse, tp, src, sid)
      | none => tfMatchAux cap (c :: acc) rest
    else tfMatchAux cap (c :: acc) rest

/-- Embeds the strict TF pattern
`r"^(.*?)_(\d+hpi)_([a-zA-Z0-9]+)_(.*?)" + suffix + "$"` (line 274). -/
def tfMatchStrict (suffix cs : List Char) : Option (List Char × List Char × List Char × List Char) :=
  tfMatchAux (capBeforeSuffixNG suffix) [] cs

/-- Embeds the relaxed TF pattern
`r"^(.*?)_(\d+hpi)_([a-zA-Z0-9]+)_(.*)" + suffix + "$"` (line 278). -/
def tfMatchRelaxed (suffix cs : List Char) : Option (List Char × List Char × List Char × List Char) :=
  tfMatchAux (capBeforeSuffixGr suffix) [] cs

/-- Outcome of one line of the TF list file. -/
inductive TFLine
  | blank
  | unknownType (filename : List Char)
  | badName (filename : List Char)
  | record (r : TFRecord)
deriving DecidableEq

/-- Builds the stored TF record (lines 284-305). -/
def mkTFRecord (filename : List Char) (vt : ViewType)
    (g : List Char × List Char × List Char × List Char) : TFRecord :=
  { filename := filename, tfName := g.1, timepoint := g.2.1, sourceName := g.2.2.1,
    sourceId := g.2.2.2, viewType := vt, factorSourceKey := (g.1, g.2.2.1) }

/-- Embeds one iteration of the TF first-pass loop (lines 256-305): strip,
skip blank lines silently, dispatch on the exact suffix (`.narrowPeak.bb`
first, then `.bw`, otherwise warn), then try the strict pattern and fall
back to the relaxed one, warning only when both fail. -/
def tfClassifyLine (line : List Char) : TFLine :=
  let fullPath := stripChars line
  if fullPath.isEmpty then .blank
  else
    let filename := basenameChars fullPath
    if endsWithCS (chars ".narrowPeak.bb") filename then
      match tfMatchStrict (chars ".narrowPeak.bb") filename with
      | some g => .record (mkTFRecord filename .Peaks g)
      | none =>
        match tfMatchRelaxed (chars ".narrowPeak.bb") filename with
        | some g => .record (mkTFRecord filename .Peaks g)
        | none => .badName filename
    else if endsWithCS (chars ".bw") filename then
      match tfMatchStrict (chars ".bw") filename with
      | some g => .record (mkTFRecord filename .Signal g)
      | none =>
        match tfMatchRelaxed (chars ".bw") filename with
        | some g => .record (mkTFRecord filename .Signal g)
        | none => .badName filename
    else .unknownType filename

/-- The records collected by the TF first pass, in input order. -/
def tfRecords (lines : List (List Char)) : List TFRecord :=
  lines.filterMap (fun l =>
    match tfClassifyLine l with
    | .record r => some r
    | _ => none)

/-- The warning comment lines printed by the TF first pass (lines 271, 281). -/
def tfWarnings (lines : List (List Char)) : List (List Char) :=
  lines.filterMap (fun l =>
    match tfClassifyLine l with
    | .unknownType fn =>
      some (chars "# Warning: Unknown file type for TF track: " ++ fn ++ chars ". Skipping.")
    | .badName fn =>
      some (chars "# Warning: Could not parse TF filename: " ++ fn ++ chars " with pattern. Skipping.")
    | _ => none)

/-- Embeds `tp.replace('hpi', '')` (lines 147, 330): remove every
occurrence of the exact substring `hpi`, scanning left to right. -/
def removeHpi : List Char → List Char
  | 'h' :: 'p' :: 'i' :: rest => removeHpi rest
  | c :: rest => c :: removeHpi rest
  | [] => []

/-- Timepoint tag (lines 147, 330): `t` followed by the timepoint with the
substring `hpi` removed. -/
def timepointTag (tp : List Char) : List Char := 't' :: removeHpi tp

/-- Mark+source tag (line 148): `ms` followed by the key stripped of
non-alphanumeric characters. -/
def markSourceTag (ms : List Char) : List Char := 'm' :: 's' :: ms.filter isAlnumChar

/-- Factor+source tag (lines 326-329): `fs` followed by the cleaned TF name
truncated to 10 characters and the cleaned source truncated to 5. -/
def factorSourceTag (fs : List Char × List Char) : List Char :=
  'f' :: 's' :: ((fs.1.filter isAlnumChar).take 10 ++ (fs.2.filter isAlnumChar).take 5)

/-- View tags (line 251): the fixed `view_map` lookup. -/
def viewTag : ViewType → List Char
  | .Signal => chars "sig"
  | .Peaks => chars "pk"

/-- Display name of a view type. -/
def viewName : ViewType → List Char
  | .Signal => chars "Signal"
  | .Peaks => chars "Peaks"

/-- Decimal value of a digit list. -/
def digitsToNat (cs : List Char) : Nat :=
  cs.foldl (fun n c => 10 * n + (c.toNat - 48)) 0

/-- The first run of digits in a string, embedding
`re.search(r'\d+', x).group()`. -/
def firstDigitRun (cs : List Char) : List Char :=
  (cs.dropWhile (fun c => !isDigitChar c)).takeWhile isDigitChar

/-- The integer sort key of a timepoint value,
`int(re.search(r'\d+', x).group())` (lines 143, 322). -/
def tpKey (tp : List Char) : Nat := digitsToNat (firstDigitRun tp)

/-- Numeric order on timepoint values used by `sorted` on lines 143, 322. -/
def tpLe (a b : List Char) : Prop := tpKey a ≤ tpKey b

instance : DecidableRel tpLe := fun a b => Nat.decLe (tpKey a) (tpKey b)

instance : IsTotal (List Char) tpLe := ⟨fun a b => Nat.le_total (tpKey a) (tpKey b)⟩

instance : IsTrans (List Char) tpLe := ⟨fun _ _ _ => Nat.le_trans⟩

/-- Strict lexicographic order on character lists by code point, embedding
Python string comparison. -/
def lexLt : List Char → List Char → Bool
  | [], [] => false
  | [], _ :: _ => true
  | _ :: _, [] => false
  | a :: as, b :: bs => if a < b then true else if b < a then false else lexLt as bs

/-- The order of the plain `sorted(list(mark_sources))` (line 144):
case-sensitive lexicographic comparison of the keys. -/
def msLe (a b : List Char) : Prop := lexLt b a = false

instance : DecidableRel msLe := fun a b => inferInstanceAs (Decidable (lexLt b a = false))

/-- Python tuple comparison of the TF sort key
`(x[0].lower(), x[1].lower())` (line 321). -/
def fsKeyLt (a b : List Char × List Char) : Bool :=
  lexLt (lowerList a.1) (lowerList b.1) ||
    (lowerList a.1 == lowerList b.1 && lexLt (lowerList a.2) (lowerList b.2))

/-- The order of `sorted(list(factor_sources), key=...)` (line 321). -/
def fsLe (a b : List Char × List Char) : Prop := fsKeyLt b a = false

instance : DecidableRel fsLe := fun a b => inferInstanceAs (Decidable (fsKeyLt b a = false))

/-- Helper for `dedupFirst`: keeps elements not seen before. -/
def dedupFirstAux {α : Type} [DecidableEq α] (seen : List α) : List α → List α
  | [] => []
  | x :: rest =>
    if x ∈ seen then dedupFirstAux seen rest
    else x :: dedupFirstAux (x :: seen) rest

/-- First-occurrence deduplication: the model of a Python set of observed
values, listed in insertion order. -/
def dedupFirst {α : Type} [DecidableEq α] (l : List α) : List α := dedupFirstAux [] l

/-- Embeds line 143 / 322: the observed timepoints sorted by the embedded
integer (Python's stable `sorted` with an integer key). -/
def sortedTimepointsOf (tps : List (List Char)) : List (List Char) :=
  List.insertionSort tpLe tps

/-- The distinct signal timepoints in first-observation order. -/
def signalObservedTimepoints (lines : List (List Char)) : List (List Char) :=
  dedupFirst ((signalRecords lines).map (fun r => r.timepoint))

def signalSortedTimepoints (lines : List (List Char)) : List (List Char) :=
  sortedTimepointsOf (signalObservedTimepoints lines)

/-- Embeds line 144: `sorted(list(mark_sources))`. -/
def signalSortedMarkSources (lines : List (List Char)) : List (List Char) :=
  List.insertionSort msLe (dedupFirst ((signalRecords lines).map (fun r => r.markSourceKey)))

/-- The distinct TF timepoints in first-observation order. -/
def tfObservedTimepoints (lines : List (List Char)) : List (List Char) :=
  dedupFirst ((tfRecords lines).map (fun r => r.timepoint))

def tfSortedTimepoints (lines : List (List Char)) : List (List Char) :=
  sortedTimepointsOf (tfObservedTimepoints lines)

/-- Embeds lines 320-321: factor/source pairs sorted by lowercased TF name,
then lowercased source name. -/
def tfSortedFactorSources (lines : List (List Char)) : List (List Char × List Char) :=
  List.insertionSort fsLe (dedupFirst ((tfRecords lines).map (fun r => r.factorSourceKey)))

/-- Embeds the visibility/colour selection (lines 192-204).  The first two
checks examine `mark.upper()`, while the histone-mark and `H2A.Z` checks
are case-sensitive substring tests on `mark` itself. -/
def signalVisColor (mark : List Char) : List Char × List Char :=
  let mu := upperList mark
  if mu == chars "INPUT" then (chars "hide", chars "150,150,150")
  else if containsSub (chars "ATAC") mu then (chars "full", chars "153,50,204")
  else if containsSub (chars "H3K4me3") mark || containsSub (chars "H3K9ac") mark ||
      containsSub (chars "H3K27ac") mark || containsSub (chars "H3K18ac") mark then
    (chars "hide", chars "0,128,0")
  else if containsSub (chars "H3K9me3") mark || containsSub (chars "H3K27me3") mark then
    (chars "hide", chars "255,0,0")
  else if containsSub (chars "H2A.Z") mark then (chars "hide", chars "0,0,255")
  else (chars "hide", chars "128,128,128")

/-- Embeds `re.sub(r'[^\w-]', '_', s)` (line 212): every character outside
alphanumeric/underscore/hyphen becomes an underscore. -/
def cleanTrackChars (cs : List Char) : List Char :=
  cs.map (fun c => if isWordChar c || c == '-' then c else '_')

/-- Embeds `mark.replace('.', 'z')` (line 210). -/
def markDotsToZ (cs : List Char) : List Char :=
  cs.map (fun c => if c == '.' then 'z' else c)

/-- The signal child track identifier (lines 210-212): parent, underscore
and `mark_timepoint_source` (dots in the mark turned into `z`), the whole
cleaned to the identifier-safe set and truncated to 50 characters. -/
def signalTrackId (parentId : List Char) (r : SignalRecord) : List Char :=
  (cleanTrackChars
    (parentId ++ '_' :: (markDotsToZ r.mark ++ '_' :: r.timepoint ++ '_' :: r.source))).take 50

/-- Embeds `re.sub(r'[^a-zA-Z0-9_]', '', s)` (lines 376-377): characters
outside alphanumeric/underscore are removed, not replaced. -/
def stripNonWordChars (cs : List Char) : List Char := cs.filter isWordChar

/-- The TF child track identifier (lines 376-379): parent joined with the
stripped TF name, stripped source, timepoint and view tag, truncated to 60
characters (no replacement cleaning is applied). -/
def tfTrackId (parentId : List Char) (r : TFRecord) : List Char :=
  (parentId ++ '_' :: (stripNonWordChars r.tfName ++ '_' :: stripNonWordChars r.sourceName ++
    '_' :: r.timepoint ++ '_' :: viewTag r.viewType)).take 60

/-- The fields of one emitted signal child block (lines 178-228). -/
structure SignalChild where
  trackId : List Char
  tpTag : List Char
  msTag : List Char
  shortLabel : List Char
  longLabel : List Char
  visibility : List Char
  color : List Char
  bigDataUrl : List Char
  priority : Nat
  filename : List Char
deriving DecidableEq

/-- Builds one signal child block.  The tag dictionaries of lines 147-148
map every key to a function of that key, so the dictionary lookups of lines
188-189 are the tag functions applied to the record's own values. -/
def mkSignalChild (baseUrl parentId : List Char) (prio : Nat) (r : SignalRecord) : SignalChild :=
  let vc := signalVisColor r.mark
  { trackId := signalTrackId parentId r
    tpTag := timepointTag r.timepoint
    msTag := markSourceTag r.markSourceKey
    shortLabel := r.mark ++ ' ' :: r.timepoint ++ chars " (" ++ r.source ++ chars ")"
    longLabel := r.mark ++ chars " signal at " ++ r.timepoint ++ chars " from " ++ r.source ++
      chars " (" ++ r.sourceId ++ chars ")"
    visibility := vc.1
    color := vc.2
    bigDataUrl := baseUrl ++ '/' :: r.filename
    priority := prio
    filename := r.filename }

/-- The second pass of the signal generator (lines 177-230): one child per
stored record in input order, the priority counter starting at 21. -/
def signalChildrenAux (baseUrl parentId : List Char) (prio : Nat) :
    List SignalRecord → List SignalChild
  | [] => []
  | r :: rest =>
    mkSignalChild baseUrl parentId prio r :: signalChildrenAux baseUrl parentId (prio + 1) rest

def signalChildren (lines : List (List Char)) (baseUrl parentId : List Char) : List SignalChild :=
  signalChildrenAux baseUrl parentId 21 (signalRecords lines)

/-- The fields of one emitted TF child block (lines 362-408). -/
structure TFChild where
  trackId : List Char
  viewType : ViewType
  viewTagVal : List Char
  fsTag : List Char
  tpTag : List Char
  shortLabel : List Char
  longLabel : List Char
  color : List Char
  bigDataUrl : List Char
  priority : Nat
  filename : List Char
deriving DecidableEq

/-- Builds one TF child block (lines 362-408). -/
def mkTFChild (baseUrl parentId : List Char) (prio : Nat) (r : TFRecord) : TFChild :=
  let vsfx := match r.viewType with
    | .Signal => chars "Sig"
    | .Peaks => chars "Pks"
  { trackId := tfTrackId parentId r
    viewType := r.viewType
    viewTagVal := viewTag r.viewType
    fsTag := factorSourceTag r.factorSourceKey
    tpTag := timepointTag r.timepoint
    shortLabel := r.tfName ++ chars " (" ++ r.sourceName ++ chars ") " ++ r.timepoint ++ ' ' :: vsfx
    longLabel := chars "TF " ++ r.tfName ++ chars " (" ++ r.sourceName ++ chars ") at " ++
      r.timepoint ++ chars " from " ++ r.sourceId ++ chars " - " ++ viewName r.viewType
    color := match r.viewType with
      | .Signal => chars "0,0,170"
      | .Peaks => chars "0,0,0"
    bigDataUrl := baseUrl ++ '/' :: r.filename
    priority := prio
    filename := r.filename }

/-- The second pass of the TF generator (lines 361-409): priority counter
starting at 1. -/
def tfChildrenAux (baseUrl parentId : List Char) (prio : Nat) : List TFRecord → List TFChild
  | [] => []
  | r :: rest => mkTFChild baseUrl parentId prio r :: tfChildrenAux baseUrl parentId (prio + 1) rest

def tfChildren (lines : List (List Char)) (baseUrl parentId : List Char) : List TFChild :=
  tfChildrenAux baseUrl parentId 1 (tfRecords lines)

/-- The fields of one emitted chromatin-state child block (lines 49-70). -/
structure ChromChild where
  trackId : List Char
  subtrackId : List Char
  shortLabel : List Char
  longLabel : List Char
  bigDataUrl : List Char
  priority : Nat
  filename : List Char
deriving DecidableEq

/-- Builds one chromatin-state child block: the identifier is the plain
untruncated `parent_subtrack` concatenation (line 57). -/
def mkChromChild (baseUrl parentId : List Char) (prio : Nat) (sid fn : List Char) : ChromChild :=
  { trackId := parentId ++ '_' :: sid
    subtrackId := sid
    shortLabel := sid ++ chars " States"
    longLabel := chars "Chromatin States for " ++ sid
    bigDataUrl := baseUrl ++ '/' :: fn
    priority := prio
    filename := fn }

/-- One step of the chromatin-state loop: a warning line or a child block. -/
inductive ChromItem
  | warn (filename : List Char)
  | child (c : ChromChild)
deriving DecidableEq

/-- Embeds the chromatin-state loop (lines 34-70): skip blank lines, warn
on unparsable names, otherwise emit a child and advance the priority
counter (which starts at 1 and only advances on emitted children). -/
def chromItemsAux (baseUrl parentId : List Char) (prio : Nat) : List (List Char) → List ChromItem
  | [] => []
  | line :: rest =>
    match chromClassifyLine line with
    | .blank => chromItemsAux baseUrl parentId prio rest
    | .badName fn => .warn fn :: chromItemsAux baseUrl parentId prio rest
    | .record sid fn =>
      .child (mkChromChild baseUrl parentId prio sid fn) ::
        chromItemsAux baseUrl parentId (prio + 1) rest

def chromItems (lines : List (List Char)) (baseUrl parentId : List Char) : List ChromItem :=
  chromItemsAux baseUrl parentId 1 lines

def chromChildren (lines : List (List Char)) (baseUrl parentId : List Char) : List ChromChild :=
  (chromItems lines baseUrl parentId).filterMap (fun it =>
    match it with
    | .child c => some c
    | _ => none)

/-- Decimal rendering of the priority counter. -/
def natChars (n : Nat) : List Char := (Nat.repr n).data

/-- Embeds `" ".join(items)`. -/
def joinSpace : List (List Char) → List Char
  | [] => []
  | [x] => x
  | x :: rest => x ++ ' ' :: joinSpace rest

/-- The chromatin-state child block lines (lines 58-68). -/
def chromChildLines (parentId : List Char) (c : ChromChild) : List (List Char) :=
  [chars "track " ++ c.trackId,
   chars "parent " ++ parentId ++ chars " on",
   chars "type bigBed 9 +",
   chars "shortLabel " ++ c.shortLabel,
   chars "longLabel " ++ c.longLabel,
   chars "visibility dense",
   chars "itemRgb on",
   chars "bigDataUrl " ++ c.bigDataUrl,
   chars "priority " ++ natChars c.priority,
   chars ""]

/-- The lines printed for one chromatin-state loop step (lines 46, 58-68). -/
def chromItemLines (parentId : List Char) : ChromItem → List (List Char)
  | .warn fn =>
    [chars "# Warning: Could not extract identifier from filename: " ++ fn ++ chars ". Skipping."]
  | .child c => chromChildLines parentId c

/-- The full output of `create_chrom_state_trackdb` (lines 15-75) as the
list of printed lines; `none` as the input means the list file is missing.
The parent composite block is printed before the file is opened. -/
def chromStateOutput (path : List Char) (input : Option (List (List Char)))
    (baseUrl parentId : List Char) : List (List Char) :=
  chars "# --- Chromatin State Tracks ---" ::
  (chars "track " ++ parentId) ::
  chars "compositeTrack on" ::
  chars "shortLabel IDC Chromatin States" ::
  chars "longLabel P. falciparum chromatin states during the IDC" ::
  chars "type bigBed" ::
  chars "visibility dense" ::
  chars "" ::
  (match input with
   | none => [chars "# Error: Input file not found at " ++ path]
   | some lines => ((chromItems lines baseUrl parentId).map (chromItemLines parentId)).flatten)

/-- The `subGroup1` declaration line of the signal parent (lines 165-166):
tag/value pairs in sorted timepoint order. -/
def signalSubGroup1Line (lines : List (List Char)) : List Char :=
  chars "subGroup1 timepoint Timepoint " ++
    joinSpace ((signalSortedTimepoints lines).map (fun tp => timepointTag tp ++ '=' :: tp))

/-- The `subGroup2` declaration line of the signal parent (lines 168-169). -/
def signalSubGroup2Line (lines : List (List Char)) : List Char :=
  chars "subGroup2 markSource Mark_Source " ++
    joinSpace ((signalSortedMarkSources lines).map (fun ms => markSourceTag ms ++ '=' :: ms))

/-- The signal parent composite block (lines 151-174). -/
def signalParentLines (lines : List (List Char)) (parentId : List Char) : List (List Char) :=
  [chars "track " ++ parentId,
   chars "compositeTrack on",
   chars "shortLabel Histone Marks",
   chars "longLabel P. falciparum Histone Marks and Accessibility",
   chars "type bigWig",
   chars "visibility full",
   chars "autoScale off",
   chars "groupAutoScale on",
   chars "group regulation",
   chars "priority 20",
   chars "dragAndDrop subTracks",
   chars "noInherit on",
   signalSubGroup1Line lines,
   signalSubGroup2Line lines,
   chars "dimensions dimX=timepoint dimY=markSource",
   chars "sortOrder timepoint=+ markSource=+",
   chars ""]

/-- One signal child block (lines 217-229). -/
def signalChildLines (parentId : List Char) (c : SignalChild) : List (List Char) :=
  [chars "    track " ++ c.trackId,
   chars "    parent " ++ parentId ++ chars " on",
   chars "    subGroups timepoint=" ++ c.tpTag ++ chars " markSource=" ++ c.msTag,
   chars "    type bigWig",
   chars "    shortLabel " ++ c.shortLabel,
   chars "    longLabel " ++ c.longLabel,
   chars "    visibility " ++ c.visibility,
   chars "    color " ++ c.color,
   chars "    autoScale off",
   chars "    bigDataUrl " ++ c.bigDataUrl,
   chars "    priority " ++ natChars c.priority,
   chars ""]

/-- The full output of `create_signal_trackdb` (lines 89-230): header, then
on a missing file only the error comment; otherwise the first-pass warning
lines, then either the empty-category diagnostic or the parent block
followed by the child blocks. -/
def signalOutput (path : List Char) (input : Option (List (List Char)))
    (baseUrl parentId : List Char) : List (List Char) :=
  chars "# --- Histone Mark / Signal Tracks (with Subgroups) ---" ::
  (match input with
   | none => [chars "# Error: Signal track input file not found at " ++ path]
   | some lines =>
     signalWarnings lines ++
       (if (signalRecords lines).isEmpty then
         [chars "# No valid signal track data found in " ++ path]
       else
         signalParentLines lines parentId ++
           ((signalChildren lines baseUrl parentId).map (signalChildLines parentId)).flatten))

/-- The `subGroup2` declaration line of the TF parent (lines 346-347). -/
def tfSubGroup2Line (lines : List (List Char)) : List Char :=
  chars "subGroup2 timepoint Timepoint " ++
    joinSpace ((tfSortedTimepoints lines).map (fun tp => timepointTag tp ++ '=' :: tp))

/-- The `subGroup3` declaration line of the TF parent (lines 349-350). -/
def tfSubGroup3Line (lines : List (List Char)) : List Char :=
  chars "subGroup3 factorSource Factor_Source " ++
    joinSpace ((tfSortedFactorSources lines).map
      (fun k => factorSourceTag k ++ '=' :: (k.1 ++ '_' :: k.2)))

/-- The TF parent composite block (lines 334-357). -/
def tfParentLines (lines : List (List Char)) (parentId : List Char) : List (List Char) :=
  [chars "track " ++ parentId,
   chars "compositeTrack on",
   chars "shortLabel TFs",
   chars "longLabel P. falciparum Transcription Factor ChIP-seq",
   chars "visibility dense",
   chars "group regulation",
   chars "priority 30",
   chars "dragAndDrop subTracks",
   chars "noInherit on",
   chars "subGroup1 view Views Signal=sig Peaks=pk",
   tfSubGroup2Line lines,
   tfSubGroup3Line lines,
   chars "dimensions dimX=factorSource dimY=timepoint dimA=view",
   chars "sortOrder view=+ factorSource=+ timepoint=+",
   chars "visibilityViewDefaults sig=full pk=hide",
   chars ""]

/-- One TF child block (lines 387-408); the field set depends on the view. -/
def tfChildLines (parentId : List Char) (c : TFChild) : List (List Char) :=
  [chars "    track " ++ c.trackId,
   chars "    parent " ++ parentId ++ chars " on",
   chars "    subGroups view=" ++ c.viewTagVal ++ chars " factorSource=" ++ c.fsTag ++
     chars " timepoint=" ++ c.tpTag] ++
  (match c.viewType with
   | .Signal =>
     [chars "    type bigWig",
      chars "    shortLabel " ++ c.shortLabel,
      chars "    longLabel " ++ c.longLabel,
      chars "    color " ++ c.color,
      chars "    autoScale off",
      chars "    groupAutoScale on"]
   | .Peaks =>
     [chars "    type bigBed 6 +",
      chars "    shortLabel " ++ c.shortLabel,
      chars "    longLabel " ++ c.longLabel,
      chars "    color " ++ c.color]) ++
  [chars "    bigDataUrl " ++ c.bigDataUrl,
   chars "    priority " ++ natChars c.priority,
   chars ""]

/-- The full output of `create_tf_trackdb` (lines 244-409). -/
def tfOutput (path : List Char) (input : Option (List (List Char)))
    (baseUrl parentId : List Char) : List (List Char) :=
  chars "# --- Transcription Factor (TF) Tracks (with combined Factor_Source subgroup) ---" ::
  (match input with
   | none => [chars "# Error: TF track input file not found at " ++ path]
   | some lines =>
     tfWarnings lines ++
       (if (tfRecords lines).isEmpty then
         [chars "# No valid TF track data found in " ++ path]
       else
         tfParentLines lines parentId ++
           ((tfChildren lines baseUrl parentId).map (tfChildLines parentId)).flatten))

/-- A printed comment line. -/
def isCommentLine : List Char → Bool
  | '#' :: _ => true
  | _ => false

/-- A line that opens a track declaration block (child blocks are indented
by four spaces). -/
def isTrackLine (l : List Char) : Bool :=
  isPrefixCS (chars "track ") l || isPrefixCS (chars "    track ") l

/-- Number of declaration blocks in an output, counted by their `track`
opening lines. -/
def declBlockCount (out : List (List Char)) : Nat := (out.filter isTrackLine).length

/-- Modelled from the spec (claim C2's wording): the same rule table with
every rule evaluated case-insensitively on the normalized mark.  Used only
to compare the claimed behaviour with the code's. -/
def claimVisColorCI (mark : List Char) : List Char × List Char :=
  let mu := upperList mark
  if mu == chars "INPUT" then (chars "hide", chars "150,150,150")
  else if containsSub (chars "ATAC") mu then (chars "full", chars "153,50,204")
  else if containsSub (chars "H3K4ME3") mu || containsSub (chars "H3K9AC") mu ||
      containsSub (chars "H3K27AC") mu || containsSub (chars "H3K18AC") mu then
    (chars "hide", chars "0,128,0")
  else if containsSub (chars "H3K9ME3") mu || containsSub (chars "H3K27ME3") mu then
    (chars "hide", chars "255,0,0")
  else if containsSub (chars "H2A.Z") mu then (chars "hide", chars "0,0,255")
  else (chars "hide", chars "128,128,128")

/-- Modelled from the spec (claim C3's wording): case-insensitive
lexicographic order on mark+source keys. -/
def ciLexLe (a b : List Char) : Prop := lexLt (lowerList b) (lowerList a) = false

instance : DecidableRel ciLexLe :=
  fun a b => inferInstanceAs (Decidable (lexLt (lowerList b) (lowerList a) = false))

/-- Modelled from the spec (claim C4's wording): a TF identifier built like
the signal one, with unsafe characters replaced by underscores (hyphens
kept) and truncation to 60. -/
def claimTfTrackId (parentId : List Char) (r : TFRecord) : List Char :=
  (cleanTrackChars (parentId ++ '_' :: (r.tfName ++ '_' :: r.sourceName ++ '_' :: r.timepoint ++
    '_' :: viewTag r.viewType))).take 60

/-- Shape of every timepoint captured by `(\d+hpi)` under `re.IGNORECASE`:
a nonempty digit run followed by a case variant of `hpi`. -/
def TpShape (tp : List Char) : Prop :=
  ∃ d a b c, tp = d ++ [a, b, c] ∧ d ≠ [] ∧ (∀ x ∈ d, isDigitChar x = true) ∧
    (a = 'h' ∨ a = 'H') ∧ (b = 'p' ∨ b = 'P') ∧ (c = 'i' ∨ c = 'I')

theorem lexLt_irrefl : ∀ cs : List Char, lexLt cs cs = false := by
  intro cs
  induction cs with
  | nil => rfl
  | cons c rest ih => simp [lexLt, lt_irrefl, ih]

theorem lexLt_trans :
    ∀ a b c : List Char, lexLt a b = true → lexLt b c = true → lexLt a c = true := by
  intro a
  induction a with
  | nil =>
    intro b c hab hbc
    cases b with
    | nil => simp [lexLt] at hab
    | cons b0 bs =>
      cases c with
      | nil => simp [lexLt] at hbc
      | cons c0 cs => simp [lexLt]
  | cons a0 as ih =>
    intro b c hab hbc
    cases b with
    | nil => simp [lexLt] at hab
    | cons b0 bs =>
      cases c with
      | nil => simp [lexLt] at hbc
      | cons c0 cs =>
        simp only [lexLt] at hab hbc ⊢
        rcases lt_trichotomy a0 b0 with h1 | h1 | h1
        · rcases lt_trichotomy b0 c0 with h2 | h2 | h2
          · simp [lt_trans h1 h2]
          · subst h2; simp [h1]
          · simp [h2, asymm h2] at hbc
        · subst h1
          rcases lt_trichotomy a0 c0 with h2 | h2 | h2
          · simp [h2]
          · subst h2
            simp [lt_irrefl] at hab hbc ⊢
            exact ih bs cs hab hbc
          · simp [h2, asymm h2] at hbc
        · simp [h1, asymm h1] at hab

theorem lexLt_conn :
    ∀ a b : List Char, lexLt a b = false → lexLt b a = false → a = b := by
  intro a
  induction a with
  | nil =>
    intro b hab _
    cases b with
    | nil => rfl
    | cons b0 bs => simp [lexLt] at hab
  | cons a0 as ih =>
    intro b hab hba
    cases b with
    | nil => simp [lexLt] at hba
    | cons b0 bs =>
      simp only [lexLt] at hab hba
      rcases lt_trichotomy a0 b0 with h1 | h1 | h1
      · simp [h1] at hab
      · subst h1
        simp [lt_irrefl] at hab hba
        rw [ih bs hab hba]
      · simp [h1, asymm h1] at hba

theorem lexLt_asymm : ∀ a b : List Char, lexLt a b = true → lexLt b a = false := by
  intro a b hab
  by_contra h
  rw [Bool.not_eq_false] at h
  have := lexLt_trans a b a hab h
  rw [lexLt_irrefl] at this
  exact Bool.false_ne_true this

instance : IsTotal (List Char) msLe := by
  refine ⟨fun a b => ?_⟩
  by_cases h : lexLt b a = true
  · exact Or.inr (lexLt_asymm b a h)
  · exact Or.inl (by show lexLt b a = false; simpa using h)

theorem lexLt_neg_trans (a b c : List Char) (hba : lexLt b a = false)
    (hcb : lexLt c b = false) : lexLt c a = false := by
  by_contra h
  rw [Bool.not_eq_false] at h
  rcases h3 : lexLt b c with _ | _
  · have hbceq : b = c := lexLt_conn b c h3 hcb
    subst hbceq
    exact Bool.false_ne_true (hba ▸ h)
  · have := lexLt_trans b c a h3 h
    exact Bool.false_ne_true (hba ▸ this)

instance : IsTrans (List Char) msLe :=
  ⟨fun _ b _ hab hbc => lexLt_neg_trans _ b _ hab hbc⟩

theorem fsKeyLt_neg_trans (a b c : List Char × List Char) (hba : fsKeyLt b a = false)
    (hcb : fsKeyLt c b = false) : fsKeyLt c a = false := by
  simp only [fsKeyLt, Bool.or_eq_false_iff, Bool.and_eq_false_iff] at hba hcb ⊢
  obtain ⟨hba1, hba2⟩ := hba
  obtain ⟨hcb1, hcb2⟩ := hcb
  refine ⟨lexLt_neg_trans _ _ _ hba1 hcb1, ?_⟩
  by_cases hca : lowerList c.1 = lowerList a.1
  · right
    rw [← hca] at hba1
    have hcb1eq : lowerList c.1 = lowerList b.1 := lexLt_conn _ _ hcb1 hba1
    have h2cb : lexLt (lowerList c.2) (lowerList b.2) = false := by
      rcases hcb2 with h | h
      · rw [beq_eq_false_iff_ne] at h
        exact absurd hcb1eq h
      · exact h
    have h2ba : lexLt (lowerList b.2) (lowerList a.2) = false := by
      rcases hba2 with h | h
      · rw [beq_eq_false_iff_ne] at h
        exact absurd (hcb1eq ▸ hca) h
      · exact h
    exact lexLt_neg_trans _ _ _ h2ba h2cb
  · left
    exact beq_eq_false_iff_ne.mpr hca

theorem fsKeyLt_irrefl (a : List Char × List Char) : fsKeyLt a a = false := by
  simp [fsKeyLt, lexLt_irrefl]

theorem fsKeyLt_trans (a b c : List Char × List Char) (hab : fsKeyLt a b = true)
    (hbc : fsKeyLt b c = true) : fsKeyLt a c = true := by
  simp only [fsKeyLt, Bool.or_eq_true, Bool.and_eq_true, beq_iff_eq] at hab hbc ⊢
  rcases hab with h1 | ⟨he1, h1⟩
  · rcases hbc with h2 | ⟨he2, h2⟩
    · exact Or.inl (lexLt_trans _ _ _ h1 h2)
    · exact Or.inl (he2 ▸ h1)
  · rcases hbc with h2 | ⟨he2, h2⟩
    · exact Or.inl (he1 ▸ h2)
    · exact Or.inr ⟨he1.trans he2, lexLt_trans _ _ _ h1 h2⟩

theorem fsKeyLt_asymm (a b : List Char × List Char) (h : fsKeyLt a b = true) :
    fsKeyLt b a = false := by
  by_contra hc
  rw [Bool.not_eq_false] at hc
  have := fsKeyLt_trans a b a h hc
  exact Bool.false_ne_true ((fsKeyLt_irrefl a) ▸ this)

instance : IsTotal (List Char × List Char) fsLe := by
  refine ⟨fun a b => ?_⟩
  by_cases h : fsKeyLt b a = true
  · exact Or.inr (fsKeyLt_asymm b a h)
  · exact Or.inl (by show fsKeyLt b a = false; simpa using h)

instance : IsTrans (List Char × List Char) fsLe :=
  ⟨fun _ b _ hab hbc => fsKeyLt_neg_trans _ b _ hab hbc⟩

theorem normalizeMark_idem (cs : List Char) :
    normalizeMark (normalizeMark cs) = normalizeMark cs := by
  simp only [normalizeMark, List.map_map]
  apply List.map_congr_left
  intro a _
  by_cases h : a = '-' <;> simp [Function.comp, h]

theorem normalizeMark_no_dash (cs : List Char) : '-' ∉ normalizeMark cs := by
  intro hmem
  rw [normalizeMark, List.mem_map] at hmem
  obtain ⟨c, _, hc⟩ := hmem
  by_cases h : c = '-'
  · rw [h] at hc
    simp at hc
  · rw [if_neg (by simpa using h)] at hc
    exact h hc

/-- C8: a well-formed signal filename `H3K4me3_10hpi_Lab_abc123.bw` parses
into mark, timepoint, source and source id, `H2A-Z_10hpi_Lab_x.bw` yields
the normalized mark `H2A.Z`, and mark normalization replaces every `-` by
`.` exactly and idempotently. -/
theorem claim_c8_signal_parse :
    signalClassifyLine (chars "H3K4me3_10hpi_Lab_abc123.bw") =
      .record { filename := chars "H3K4me3_10hpi_Lab_abc123.bw", mark := chars "H3K4me3",
                timepoint := chars "10hpi", source := chars "Lab", sourceId := chars "abc123",
                markSourceKey := chars "H3K4me3_Lab" }
    ∧ signalClassifyLine (chars "H2A-Z_10hpi_Lab_x.bw") =
      .record { filename := chars "H2A-Z_10hpi_Lab_x.bw", mark := chars "H2A.Z",
                timepoint := chars "10hpi", source := chars "Lab", sourceId := chars "x",
                markSourceKey := chars "H2A.Z_Lab" }
    ∧ (∀ cs, normalizeMark (normalizeMark cs) = normalizeMark cs)
    ∧ (∀ cs, '-' ∉ normalizeMark cs) :=
  ⟨by decide, by decide, normalizeMark_idem, normalizeMark_no_dash⟩

theorem signalChildrenAux_priorities (b p : List Char) (recs : List SignalRecord) :
    ∀ prio, (signalChildrenAux b p prio recs).map (fun c => c.priority) =
      List.range' prio recs.length := by
  induction recs with
  | nil => intro prio; rfl
  | cons r rest ih =>
    intro prio
    simp [signalChildrenAux, List.range'_succ, ih, mkSignalChild]

theorem signalChildrenAux_filenames (b p : List Char) (recs : List SignalRecord) :
    ∀ prio, (signalChildrenAux b p prio recs).map (fun c => c.filename) =
      recs.map (fun r => r.filename) := by
  induction recs with
  | nil => intro prio; rfl
  | cons r rest ih =>
    intro prio
    simp [signalChildrenAux, ih, mkSignalChild]

theorem signalChildrenAux_length (b p : List Char) (recs : List SignalRecord) :
    ∀ prio, (signalChildrenAux b p prio recs).length = recs.length := by
  intro prio
  have := signalChildrenAux_filenames b p recs prio
  have h := congrArg List.length this
  simpa using h

theorem tfChildrenAux_priorities (b p : List Char) (recs : List TFRecord) :
    ∀ prio, (tfChildrenAux b p prio recs).map (fun c => c.priority) =
      List.range' prio recs.length := by
  induction recs with
  | nil => intro prio; rfl
  | cons r rest ih =>
    intro prio
    simp [tfChildrenAux, List.range'_succ, ih, mkTFChild]

theorem tfChildrenAux_filenames (b p : List Char) (recs : List TFRecord) :
    ∀ prio, (tfChildrenAux b p prio recs).map (fun c => c.filename) =
      recs.map (fun r => r.filename) := by
  induction recs with
  | nil => intro prio; rfl
  | cons r rest ih =>
    intro prio
    simp [tfChildrenAux, ih, mkTFChild]

theorem tfChildrenAux_length (b p : List Char) (recs : List TFRecord) :
    ∀ prio, (tfChildrenAux b p prio recs).length = recs.length := by
  intro prio
  have h := congrArg List.length (tfChildrenAux_filenames b p recs prio)
  simpa using h

theorem chromItemsAux_priorities (b p : List Char) (lines : List (List Char)) :
    ∀ prio,
      ((chromItemsAux b p prio lines).filterMap (fun it =>
        match it with
        | .child c => some c
        | _ => none)).map (fun c => c.priority) =
      List.range' prio ((chromItemsAux b p prio lines).filterMap (fun it =>
        match it with
        | .child c => some c
        | _ => none)).length := by
  induction lines with
  | nil => intro prio; rfl
  | cons l rest ih =>
    intro prio
    cases hcl : chromClassifyLine l with
    | blank => simp only [chromItemsAux, hcl]; exact ih prio
    | badName fn => simp only [chromItemsAux, hcl, List.filterMap_cons]; exact ih prio
    | record sid fn =>
      simp only [chromItemsAux, hcl, List.filterMap_cons, List.map_cons, List.length_cons,
        List.range'_succ, mkChromChild]
      exact congrArg (List.cons prio) (ih (prio + 1))

/-- C6: for each category the emitted child priorities are the consecutive
integers from the category's base (1 for chromatin-state and TF, 21 for
signal), assigned in input order (the children carry the records'
filenames in parse order, not re-sorted). -/
theorem claim_c6_priorities (lines : List (List Char)) (baseUrl parentId : List Char) :
    ((chromChildren lines baseUrl parentId).map (fun c => c.priority) =
      List.range' 1 (chromChildren lines baseUrl parentId).length)
    ∧ ((signalChildren lines baseUrl parentId).map (fun c => c.priority) =
      List.range' 21 (signalChildren lines baseUrl parentId).length)
    ∧ ((tfChildren lines baseUrl parentId).map (fun c => c.priority) =
      List.range' 1 (tfChildren lines baseUrl parentId).length)
    ∧ ((signalChildren lines baseUrl parentId).map (fun c => c.filename) =
      (signalRecords lines).map (fun r => r.filename))
    ∧ ((tfChildren lines baseUrl parentId).map (fun c => c.filename) =
      (tfRecords lines).map (fun r => r.filename)) := by
  refine ⟨?_, ?_, ?_, ?_, ?_⟩
  · exact chromItemsAux_priorities baseUrl parentId lines 1
  · rw [signalChildren, signalChildrenAux_length baseUrl parentId (signalRecords lines) 21]
    exact signalChildrenAux_priorities baseUrl parentId (signalRecords lines) 21
  · rw [tfChildren, tfChildrenAux_length baseUrl parentId (tfRecords lines) 1]
    exact tfChildrenAux_priorities baseUrl parentId (tfRecords lines) 1
  · exact signalChildrenAux_filenames baseUrl parentId (signalRecords lines) 21
  · exact tfChildrenAux_filenames baseUrl parentId (tfRecords lines) 1

/-- C7: the timepoint subgroup enumerations (which the `subGroup`
declaration lines list in this order) are sorted in ascending order of the
embedded integer, for both the signal and the TF category, and contain
exactly the observed values; the embedded-integer order puts `20hpi`
before `100hpi`. -/
theorem claim_c7_timepoint_numeric_sort (lines : List (List Char)) :
    List.Sorted tpLe (signalSortedTimepoints lines)
    ∧ List.Sorted tpLe (tfSortedTimepoints lines)
    ∧ List.Perm (signalSortedTimepoints lines) (signalObservedTimepoints lines)
    ∧ List.Perm (tfSortedTimepoints lines) (tfObservedTimepoints lines)
    ∧ sortedTimepointsOf [chars "100hpi", chars "20hpi"] = [chars "20hpi", chars "100hpi"]
    ∧ tpKey (chars "20hpi") ≤ tpKey (chars "100hpi") :=
  ⟨List.sorted_insertionSort tpLe (signalObservedTimepoints lines),
   List.sorted_insertionSort tpLe (tfObservedTimepoints lines),
   List.perm_insertionSort tpLe (signalObservedTimepoints lines),
   List.perm_insertionSort tpLe (tfObservedTimepoints lines),
   by decide, by decide⟩

/-- C3 counterexample: the signal mark+source keys are sorted
case-sensitively (Python byte order, capitals first), not
case-insensitively as claimed: for observed keys `a_S` and `B_S` the code
emits `B_S` before `a_S`, an order that violates the claimed
case-insensitive lexicographic order. -/
theorem claim_c3_counterexample :
    signalSortedMarkSources [chars "a_10hpi_S_x.bw", chars "B_10hpi_S_y.bw"] =
      [chars "B_S", chars "a_S"]
    ∧ ¬ List.Sorted ciLexLe
        (signalSortedMarkSources [chars "a_10hpi_S_x.bw", chars "B_10hpi_S_y.bw"]) :=
  ⟨by decide, by decide⟩

/-- C3 amended: values are sorted before tag assignment, but with these
orders: timepoints numerically by the embedded integer (both categories),
signal mark+source keys by plain case-sensitive lexicographic order, and
TF factor+source pairs case-insensitively by lowercased name then
lowercased source. -/
theorem claim_c3_amended (lines : List (List Char)) :
    List.Sorted tpLe (signalSortedTimepoints lines)
    ∧ List.Sorted tpLe (tfSortedTimepoints lines)
    ∧ List.Sorted msLe (signalSortedMarkSources lines)
    ∧ List.Sorted fsLe (tfSortedFactorSources lines)
    ∧ List.Perm (signalSortedMarkSources lines)
        (dedupFirst ((signalRecords lines).map (fun r => r.markSourceKey)))
    ∧ List.Perm (tfSortedFactorSources lines)
        (dedupFirst ((tfRecords lines).map (fun r => r.factorSourceKey))) :=
  ⟨List.sorted_insertionSort tpLe (signalObservedTimepoints lines),
   List.sorted_insertionSort tpLe (tfObservedTimepoints lines),
   List.sorted_insertionSort msLe _,
   List.sorted_insertionSort fsLe _,
   List.perm_insertionSort msLe _,
   List.perm_insertionSort fsLe _⟩

/-- C2 counterexample: the rule table is not case-insensitive.  The mark
`h3k9ac` (reachable, since the filename regex matches case-insensitively)
contains `H3K9ac` only up to case, so the code falls through to the
default gray, while the claimed case-insensitive table yields the
histone-acetylation green. -/
theorem claim_c2_counterexample :
    (signalRecords [chars "h3k9ac_10hpi_Lab_x.bw"]).map (fun r => r.mark) = [chars "h3k9ac"]
    ∧ signalVisColor (chars "h3k9ac") = (chars "hide", chars "128,128,128")
    ∧ claimVisColorCI (chars "h3k9ac") = (chars "hide", chars "0,128,0")
    ∧ signalVisColor (chars "h3k9ac") ≠ claimVisColorCI (chars "h3k9ac") :=
  ⟨by decide, by decide, by decide, by decide⟩

/-- C2 amended: the pair is selected by the fixed rule table in this
priority order, first match wins: a case-insensitive exact `INPUT` match,
then a case-insensitive `ATAC` substring match, then the case-SENSITIVE
histone-acetylation substring group, then the case-sensitive
histone-methylation group, then the case-sensitive `H2A.Z` substring,
else gray.  A mark `ATAC_INPUT` fails the exact `INPUT` match and is
resolved by the `ATAC` rule. -/
theorem claim_c2_amended (mark : List Char) :
    (upperList mark = chars "INPUT" →
      signalVisColor mark = (chars "hide", chars "150,150,150"))
    ∧ (upperList mark ≠ chars "INPUT" →
        containsSub (chars "ATAC") (upperList mark) = true →
        signalVisColor mark = (chars "full", chars "153,50,204"))
    ∧ (upperList mark ≠ chars "INPUT" →
        containsSub (chars "ATAC") (upperList mark) = false →
        (containsSub (chars "H3K4me3") mark = true ∨ containsSub (chars "H3K9ac") mark = true ∨
         containsSub (chars "H3K27ac") mark = true ∨ containsSub (chars "H3K18ac") mark = true) →
        signalVisColor mark = (chars "hide", chars "0,128,0"))
    ∧ (upperList mark ≠ chars "INPUT" →
        containsSub (chars "ATAC") (upperList mark) = false →
        containsSub (chars "H3K4me3") mark = false → containsSub (chars "H3K9ac") mark = false →
        containsSub (chars "H3K27ac") mark = false → containsSub (chars "H3K18ac") mark = false →
        (containsSub (chars "H3K9me3") mark = true ∨ containsSub (chars "H3K27me3") mark = true) →
        signalVisColor mark = (chars "hide", chars "255,0,0"))
    ∧ (upperList mark ≠ chars "INPUT" →
        containsSub (chars "ATAC") (upperList mark) = false →
        containsSub (chars "H3K4me3") mark = false → containsSub (chars "H3K9ac") mark = false →
        containsSub (chars "H3K27ac") mark = false → containsSub (chars "H3K18ac") mark = false →
        containsSub (chars "H3K9me3") mark = false → containsSub (chars "H3K27me3") mark = false →
        containsSub (chars "H2A.Z") mark = true →
        signalVisColor mark = (chars "hide", chars "0,0,255"))
    ∧ (upperList mark ≠ chars "INPUT" →
        containsSub (chars "ATAC") (upperList mark) = false →
        containsSub (chars "H3K4me3") mark = false → containsSub (chars "H3K9ac") mark = false →
        containsSub (chars "H3K27ac") mark = false → containsSub (chars "H3K18ac") mark = false →
        containsSub (chars "H3K9me3") mark = false → containsSub (chars "H3K27me3") mark = false →
        containsSub (chars "H2A.Z") mark = false →
        signalVisColor mark = (chars "hide", chars "128,128,128"))
    ∧ signalVisColor (chars "ATAC_INPUT") = (chars "full", chars "153,50,204") := by
  refine ⟨?_, ?_, ?_, ?_, ?_, ?_, by decide⟩
  · intro h
    simp [signalVisColor, h]
  · intro h1 h2
    simp [signalVisColor, h2, beq_eq_false_iff_ne.mpr h1]
  · intro h1 h2 h3
    rcases h3 with h | h | h | h <;>
      simp [signalVisColor, h2, h, beq_eq_false_iff_ne.mpr h1]
  · intro h1 h2 h3 h4 h5 h6 h7
    rcases h7 with h | h <;>
      simp [signalVisColor, h2, h3, h4, h5, h6, h, beq_eq_false_iff_ne.mpr h1]
  · intro h1 h2 h3 h4 h5 h6 h7 h8 h9
    simp [signalVisColor, h2, h3, h4, h5, h6, h7, h8, h9, beq_eq_false_iff_ne.mpr h1]
  · intro h1 h2 h3 h4 h5 h6 h7 h8 h9
    simp [signalVisColor, h2, h3, h4, h5, h6, h7, h8, h9, beq_eq_false_iff_ne.mpr h1]

/-- Witness for the amended C2 theorem at concrete marks. -/
theorem claim_c2_amended_witness :
    upperList (chars "Input") = chars "INPUT"
    ∧ signalVisColor (chars "Input") = (chars "hide", chars "150,150,150") :=
  ⟨by decide, (claim_c2_amended (chars "Input")).1 (by decide)⟩

theorem mem_signalChildrenAux (b p : List Char) (recs : List SignalRecord) :
    ∀ prio c, c ∈ signalChildrenAux b p prio recs →
      ∃ r prio2, r ∈ recs ∧ c = mkSignalChild b p prio2 r := by
  induction recs with
  | nil => intro prio c h; simp [signalChildrenAux] at h
  | cons r rest ih =>
    intro prio c h
    rw [signalChildrenAux] at h
    rcases List.mem_cons.mp h with h | h
    · exact ⟨r, prio, List.mem_cons_self r rest, h⟩
    · obtain ⟨r2, p2, hm, he⟩ := ih (prio + 1) c h
      exact ⟨r2, p2, List.mem_cons_of_mem r hm, he⟩

theorem mem_tfChildrenAux (b p : List Char) (recs : List TFRecord) :
    ∀ prio c, c ∈ tfChildrenAux b p prio recs →
      ∃ r prio2, r ∈ recs ∧ c = mkTFChild b p prio2 r := by
  induction recs with
  | nil => intro prio c h; simp [tfChildrenAux] at h
  | cons r rest ih =>
    intro prio c h
    rw [tfChildrenAux] at h
    rcases List.mem_cons.mp h with h | h
    · exact ⟨r, prio, List.mem_cons_self r rest, h⟩
    · obtain ⟨r2, p2, hm, he⟩ := ih (prio + 1) c h
      exact ⟨r2, p2, List.mem_cons_of_mem r hm, he⟩

theorem mem_chromItemsAux_child (b p : List Char) (lines : List (List Char)) :
    ∀ prio c, ChromItem.child c ∈ chromItemsAux b p prio lines →
      ∃ prio2 sid fn, c = mkChromChild b p prio2 sid fn := by
  induction lines with
  | nil => intro prio c h; simp [chromItemsAux] at h
  | cons l rest ih =>
    intro prio c h
    rw [chromItemsAux] at h
    cases hcl : chromClassifyLine l with
    | blank =>
      simp only [hcl] at h
      exact ih prio c h
    | badName fn =>
      simp only [hcl, List.mem_cons] at h
      rcases h with h | h
      · exact absurd h (by simp)
      · exact ih prio c h
    | record sid fn =>
      simp only [hcl, List.mem_cons] at h
      rcases h with h | h
      · exact ⟨prio, sid, fn, by simpa using h⟩
      · exact ih (prio + 1) c h

theorem cleanTrackChars_safe (cs : List Char) :
    ∀ ch ∈ cleanTrackChars cs, (isWordChar ch || ch == '-') = true := by
  intro ch h
  rw [cleanTrackChars, List.mem_map] at h
  obtain ⟨c, _, hc⟩ := h
  rcases hb : (isWordChar c || c == '-') with _ | _
  · simp only [hb, Bool.false_eq_true, if_false] at hc
    subst hc
    decide
  · simp only [hb, if_true] at hc
    subst hc
    exact hb

theorem stripNonWordChars_word (cs : List Char) :
    ∀ ch ∈ stripNonWordChars cs, isWordChar ch = true := by
  intro ch h
  rw [stripNonWordChars, List.mem_filter] at h
  exact h.2

/-- C4 counterexample: for the TF record parsed from `AP2-G_10hpi_Lab_x.bw`
the code strips the hyphen out of the TF name (characters outside the
alphanumeric/underscore set are removed), while the claimed rule —
replacing characters outside the alphanumeric/underscore/hyphen set with
underscores — would keep the hyphen. -/
theorem claim_c4_counterexample :
    (tfChildren [chars "AP2-G_10hpi_Lab_x.bw"] (chars "http://u") (chars "PfalTFs")).map
        (fun c => c.trackId) = [chars "PfalTFs_AP2G_Lab_10hpi_sig"]
    ∧ (tfRecords [chars "AP2-G_10hpi_Lab_x.bw"]).map (claimTfTrackId (chars "PfalTFs")) =
        [chars "PfalTFs_AP2-G_Lab_10hpi_sig"]
    ∧ chars "PfalTFs_AP2G_Lab_10hpi_sig" ≠ chars "PfalTFs_AP2-G_Lab_10hpi_sig" :=
  ⟨by decide, by decide, by decide⟩

/-- C4 amended: signal identifiers are the cleaned (underscore-replaced)
parent+suffix truncated to 50 characters, so they are at most 50 long and
use only alphanumeric/underscore/hyphen characters; TF identifiers are
truncated to 60 but built by REMOVING characters outside
alphanumeric/underscore from the TF and source names (hyphens are not
kept); chromatin-state identifiers are the untruncated parent+identifier
concatenation. -/
theorem claim_c4_track_ids (lines : List (List Char)) (baseUrl parentId : List Char) :
    (∀ c ∈ signalChildren lines baseUrl parentId,
      c.trackId.length ≤ 50 ∧ ∀ ch ∈ c.trackId, (isWordChar ch || ch == '-') = true)
    ∧ (∀ c ∈ tfChildren lines baseUrl parentId, c.trackId.length ≤ 60)
    ∧ (∀ c ∈ chromChildren lines baseUrl parentId,
        c.trackId = parentId ++ '_' :: c.subtrackId)
    ∧ (∀ cs, ∀ ch ∈ stripNonWordChars cs, isWordChar ch = true) := by
  refine ⟨?_, ?_, ?_, fun cs => stripNonWordChars_word cs⟩
  · intro c hc
    obtain ⟨r, prio2, _, he⟩ := mem_signalChildrenAux baseUrl parentId (signalRecords lines) 21 c hc
    subst he
    constructor
    · show ((cleanTrackChars _).take 50).length ≤ 50
      simp
    · intro ch hch
      exact cleanTrackChars_safe _ ch (List.mem_of_mem_take hch)
  · intro c hc
    obtain ⟨r, prio2, _, he⟩ := mem_tfChildrenAux baseUrl parentId (tfRecords lines) 1 c hc
    subst he
    show (List.take 60 _).length ≤ 60
    simp
  · intro c hc
    rw [chromChildren, List.mem_filterMap] at hc
    obtain ⟨it, hit, hsome⟩ := hc
    cases it with
    | warn fn => simp at hsome
    | child c2 =>
      have hc2 : c2 = c := by simpa using hsome
      subst hc2
      obtain ⟨prio2, sid, fn, he⟩ := mem_chromItemsAux_child baseUrl parentId lines 1 c2 hit
      subst he
      rfl

/-- Witness for the amended C4 theorem on a concrete signal child and a
concrete chromatin-state child. -/
theorem claim_c4_track_ids_witness :
    (mkSignalChild (chars "u") (chars "PfalHistoneMarks") 21
        { filename := chars "H2A-Z_10hpi_Lab_x.bw", mark := chars "H2A.Z",
          timepoint := chars "10hpi", source := chars "Lab", sourceId := chars "x",
          markSourceKey := chars "H2A.Z_Lab" } ∈
      signalChildren [chars "H2A-Z_10hpi_Lab_x.bw"] (chars "u") (chars "PfalHistoneMarks"))
    ∧ (mkSignalChild (chars "u") (chars "PfalHistoneMarks") 21
        { filename := chars "H2A-Z_10hpi_Lab_x.bw", mark := chars "H2A.Z",
          timepoint := chars "10hpi", source := chars "Lab", sourceId := chars "x",
          markSourceKey := chars "H2A.Z_Lab" }).trackId.length ≤ 50 := by
  refine ⟨by decide, ?_⟩
  exact ((claim_c4_track_ids [chars "H2A-Z_10hpi_Lab_x.bw"] (chars "u")
    (chars "PfalHistoneMarks")).1 _ (by decide)).1

theorem mem_takeWhile_pred {α : Type} (q : α → Bool) :
    ∀ (l : List α) (a : α), a ∈ l.takeWhile q → q a = true := by
  intro l
  induction l with
  | nil => intro a h; simp [List.takeWhile] at h
  | cons x xs ih =>
    intro a h
    rw [List.takeWhile_cons] at h
    by_cases hq : q x = true
    · rw [if_pos hq] at h
      rcases List.mem_cons.mp h with rfl | h2
      · exact hq
      · exact ih a h2
    · rw [if_neg hq] at h
      simp at h

theorem capBeforeSuffixNG_sound (suffix : List Char) :
    ∀ cs pre, capBeforeSuffixNG suffix cs = some pre →
      ∃ sfx, cs = pre ++ sfx ∧ ciEqList sfx suffix = true := by
  intro cs
  induction cs with
  | nil =>
    intro pre h
    rw [capBeforeSuffixNG] at h
    by_cases hc : ciEqList [] suffix = true
    · rw [if_pos hc] at h
      injection h with h
      exact ⟨[], by rw [← h]; rfl, hc⟩
    · rw [if_neg hc] at h
      cases h
  | cons c rest ih =>
    intro pre h
    rw [capBeforeSuffixNG] at h
    by_cases hc : ciEqList (c :: rest) suffix = true
    · rw [if_pos hc] at h
      injection h with h
      exact ⟨c :: rest, by rw [← h]; rfl, hc⟩
    · rw [if_neg hc] at h
      cases hrec : capBeforeSuffixNG suffix rest with
      | none => rw [hrec] at h; cases h
      | some g =>
        rw [hrec] at h
        simp at h
        obtain ⟨sfx, hsplit, hci⟩ := ih g hrec
        refine ⟨sfx, ?_, hci⟩
        rw [← h, hsplit]
        rfl

theorem capBeforeSuffixNG_complete (suffix : List Char) :
    ∀ pre sfx, ciEqList sfx suffix = true →
      (capBeforeSuffixNG suffix (pre ++ sfx)).isSome = true := by
  intro pre
  induction pre with
  | nil =>
    intro sfx hci
    cases sfx with
    | nil => rw [List.nil_append, capBeforeSuffixNG, if_pos hci]; rfl
    | cons s ss => rw [List.nil_append, capBeforeSuffixNG, if_pos hci]; rfl
  | cons c pre' ih =>
    intro sfx hci
    rw [List.cons_append, capBeforeSuffixNG]
    by_cases hc : ciEqList (c :: (pre' ++ sfx)) suffix = true
    · rw [if_pos hc]; rfl
    · rw [if_neg hc]
      have hrec := ih sfx hci
      cases hsome : capBeforeSuffixNG suffix (pre' ++ sfx) with
      | none => rw [hsome] at hrec; simp at hrec
      | some g => rfl

theorem splitSourceId_sound :
    ∀ cs src sid, splitSourceId cs = some (src, sid) →
      ∃ sfx, cs = src ++ '_' :: sid ++ sfx ∧ ciEqList sfx (chars ".bw") = true := by
  intro cs
  induction cs with
  | nil => intro src sid h; rw [splitSourceId] at h; cases h
  | cons c rest ih =>
    intro src sid h
    rw [splitSourceId] at h
    by_cases hc : (c == '_') = true
    · rw [if_pos hc] at h
      cases hcap : capBeforeSuffixNG (chars ".bw") rest with
      | some sid0 =>
        rw [hcap] at h
        injection h with h
        have h1 := congrArg Prod.fst h
        have h2 := congrArg Prod.snd h
        simp only at h1 h2
        obtain ⟨sfx, hs, hci⟩ := capBeforeSuffixNG_sound (chars ".bw") rest sid0 hcap
        refine ⟨sfx, ?_, hci⟩
        have hc2 : c = '_' := by simpa using hc
        subst hc2
        rw [← h1, ← h2, hs]
        rfl
      | none =>
        rw [hcap] at h
        cases hrec : splitSourceId rest with
        | none => rw [hrec] at h; cases h
        | some pr =>
          obtain ⟨src', sid'⟩ := pr
          rw [hrec] at h
          injection h with h
          have h1 := congrArg Prod.fst h
          have h2 := congrArg Prod.snd h
          simp only at h1 h2
          obtain ⟨sfx, hs, hci⟩ := ih src' sid' hrec
          refine ⟨sfx, ?_, hci⟩
          rw [← h1, ← h2, hs]
          rfl
    · rw [if_neg hc] at h
      cases hrec : splitSourceId rest with
      | none => rw [hrec] at h; cases h
      | some pr =>
        obtain ⟨src', sid'⟩ := pr
        rw [hrec] at h
        injection h with h
        have h1 := congrArg Prod.fst h
        have h2 := congrArg Prod.snd h
        simp only at h1 h2
        obtain ⟨sfx, hs, hci⟩ := ih src' sid' hrec
        refine ⟨sfx, ?_, hci⟩
        rw [← h1, ← h2, hs]
        rfl

theorem splitSourceId_no_underscore :
    ∀ cs src sid, splitSourceId cs = some (src, sid) → '_' ∉ src := by
  intro cs
  induction cs with
  | nil => intro src sid h; rw [splitSourceId] at h; cases h
  | cons c rest ih =>
    intro src sid h
    rw [splitSourceId] at h
    by_cases hc : (c == '_') = true
    · rw [if_pos hc] at h
      cases hcap : capBeforeSuffixNG (chars ".bw") rest with
      | some sid0 =>
        rw [hcap] at h
        injection h with h
        have h1 := congrArg Prod.fst h
        simp only at h1
        rw [← h1]
        simp
      | none =>
        rw [hcap] at h
        cases hrec : splitSourceId rest with
        | none => rw [hrec] at h; cases h
        | some pr =>
          obtain ⟨src', sid'⟩ := pr
          rw [hrec] at h
          exfalso
          obtain ⟨sfx, hs, hci⟩ := splitSourceId_sound rest src' sid' hrec
          have hcomp := capBeforeSuffixNG_complete (chars ".bw") (src' ++ '_' :: sid') sfx hci
          have hshape : rest = (src' ++ '_' :: sid') ++ sfx := by
            rw [hs]
          rw [← hshape, hcap] at hcomp
          simp at hcomp
    · rw [if_neg hc] at h
      cases hrec : splitSourceId rest with
      | none => rw [hrec] at h; cases h
      | some pr =>
        obtain ⟨src', sid'⟩ := pr
        rw [hrec] at h
        injection h with h
        have h1 := congrArg Prod.fst h
        simp only at h1
        rw [← h1]
        intro hmem
        rcases List.mem_cons.mp hmem with heq | hmem'
        · rw [← heq] at hc
          simp at hc
        · exact ih src' sid' hrec hmem'

theorem matchDigitsHpi_some (cs tp rest : List Char)
    (h : matchDigitsHpi cs = some (tp, rest)) : TpShape tp := by
  simp only [matchDigitsHpi] at h
  split at h
  · cases h
  · rename_i hempty
    split at h
    · rename_i x y z tail harm
      split at h
      · rename_i hcond
        injection h with h
        have h1 := congrArg Prod.fst h
        simp only at h1
        simp only [Bool.and_eq_true, Bool.or_eq_true, beq_iff_eq] at hcond
        refine ⟨cs.takeWhile isDigitChar, x, y, z, h1.symm, ?_, ?_, hcond.1.1, hcond.1.2, hcond.2⟩
        · intro hnil
          rw [hnil] at hempty
          exact hempty rfl
        · intro w hw
          exact mem_takeWhile_pred isDigitChar cs w hw
      · cases h
    · cases h

theorem matchAfterMark_some (cs tp src sid : List Char)
    (h : matchAfterMark cs = some (tp, src, sid)) : TpShape tp ∧ '_' ∉ src := by
  rw [matchAfterMark] at h
  cases hm : matchDigitsHpi cs with
  | none => rw [hm] at h; cases h
  | some pr =>
    obtain ⟨tp0, rest0⟩ := pr
    rw [hm] at h
    cases rest0 with
    | nil =>
      simp only [matchAfterTp] at h
      cases h
    | cons c0 rest2 =>
      simp only [matchAfterTp] at h
      by_cases hc : (c0 == '_') = true
      · rw [if_pos hc] at h
        cases hsp : splitSourceId rest2 with
        | none => rw [hsp] at h; cases h
        | some pr2 =>
          obtain ⟨src0, sid0⟩ := pr2
          rw [hsp] at h
          injection h with h
          have h1 := congrArg Prod.fst h
          have h2 := congrArg (fun q => q.snd.fst) h
          simp only at h1 h2
          rw [← h1, ← h2]
          exact ⟨matchDigitsHpi_some cs tp0 _ hm,
            splitSourceId_no_underscore rest2 src0 sid0 hsp⟩
      · rw [if_neg hc] at h
        cases h

theorem signalMatchAux_exists :
    ∀ cs acc g1 tp src sid, signalMatchAux acc cs = some (g1, tp, src, sid) →
      ∃ rest, matchAfterMark rest = some (tp, src, sid) := by
  intro cs
  induction cs with
  | nil => intro acc g1 tp src sid h; rw [signalMatchAux] at h; cases h
  | cons c rest ih =>
    intro acc g1 tp src sid h
    rw [signalMatchAux] at h
    by_cases hc : (c == '_') = true
    · rw [if_pos hc] at h
      cases hm : matchAfterMark rest with
      | none => rw [hm] at h; exact ih (c :: acc) g1 tp src sid h
      | some t =>
        obtain ⟨tp0, src0, sid0⟩ := t
        rw [hm] at h
        injection h with h
        have h2 := congrArg (fun q => q.snd.fst) h
        have h3 := congrArg (fun q => q.snd.snd.fst) h
        have h4 := congrArg (fun q => q.snd.snd.snd) h
        simp only at h2 h3 h4
        rw [← h2, ← h3, ← h4]
        exact ⟨rest, hm⟩
    · rw [if_neg hc] at h
      exact ih (c :: acc) g1 tp src sid h

theorem signalMatchAux_leftmost :
    ∀ cs acc g1 tp src sid, signalMatchAux acc cs = some (g1, tp, src, sid) →
      ∀ m r, cs = m ++ '_' :: r → (matchAfterMark r).isSome = true →
        g1.length ≤ acc.length + m.length := by
  intro cs
  induction cs with
  | nil =>
    intro acc g1 tp src sid h
    rw [signalMatchAux] at h
    cases h
  | cons c rest ih =>
    intro acc g1 tp src sid h m r hsplit hsome
    rw [signalMatchAux] at h
    by_cases hc : (c == '_') = true
    · rw [if_pos hc] at h
      cases hm : matchAfterMark rest with
      | some t =>
        obtain ⟨tp0, src0, sid0⟩ := t
        rw [hm] at h
        injection h with h
        have h1 := congrArg Prod.fst h
        simp only at h1
        rw [← h1]
        simp only [List.length_reverse]
        exact Nat.le_add_right acc.length m.length
      | none =>
        rw [hm] at h
        cases m with
        | nil =>
          rw [List.nil_append] at hsplit
          injection hsplit with hc2 hr
          rw [← hr, hm] at hsome
          simp at hsome
        | cons x m' =>
          rw [List.cons_append] at hsplit
          injection hsplit with hx hrest
          have := ih (c :: acc) g1 tp src sid h m' r hrest hsome
          simp only [List.length_cons] at this ⊢
          omega
    · rw [if_neg hc] at h
      cases m with
      | nil =>
        rw [List.nil_append] at hsplit
        injection hsplit with hc2 _
        rw [hc2] at hc
        simp at hc
      | cons x m' =>
        rw [List.cons_append] at hsplit
        injection hsplit with hx hrest
        have := ih (c :: acc) g1 tp src sid h m' r hrest hsome
        simp only [List.length_cons] at this ⊢
        omega

theorem removeHpi_cons_ne (c : Char) (rest : List Char) (hc : c ≠ 'h') :
    removeHpi (c :: rest) = c :: removeHpi rest := by
  rw [removeHpi.eq_def]
  split
  · rename_i heq
    injection heq with heq1 heq2
    exact absurd heq1 hc
  · rename_i x xs heq
    injection heq with heq1 heq2
    rw [heq1, heq2]
  · rename_i heq
    cases heq

theorem removeHpi_digit_run :
    ∀ (d s : List Char), (∀ x ∈ d, isDigitChar x = true) →
      removeHpi (d ++ s) = d ++ removeHpi s := by
  intro d
  induction d with
  | nil => intro s _; rfl
  | cons c d2 ih =>
    intro s hd
    have hc : isDigitChar c = true := hd c (List.mem_cons_self c d2)
    have hch : c ≠ 'h' := by
      intro hh
      rw [hh] at hc
      exact absurd hc (by decide)
    rw [List.cons_append, removeHpi_cons_ne c _ hch,
      ih s (fun x hx => hd x (List.mem_cons_of_mem c hx)), List.cons_append]

theorem removeHpi_triple (a b c : Char) (ha : a = 'h' ∨ a = 'H') (hb : b = 'p' ∨ b = 'P')
    (hc : c = 'i' ∨ c = 'I') :
    (a = 'h' ∧ b = 'p' ∧ c = 'i' ∧ removeHpi [a, b, c] = []) ∨
    (removeHpi [a, b, c] = [a, b, c] ∧ ¬(a = 'h' ∧ b = 'p' ∧ c = 'i')) := by
  rcases ha with rfl | rfl <;> rcases hb with rfl | rfl <;> rcases hc with rfl | rfl
  · exact Or.inl ⟨rfl, rfl, rfl, by decide⟩
  all_goals exact Or.inr ⟨by decide, by decide⟩

theorem tpShape_tag_inj :
    ∀ t1 t2, TpShape t1 → TpShape t2 → timepointTag t1 = timepointTag t2 → t1 = t2 := by
  intro t1 t2 h1 h2 heq
  obtain ⟨d1, a1, b1, c1, rfl, hne1, hd1, ha1, hb1, hc1⟩ := h1
  obtain ⟨d2, a2, b2, c2, rfl, hne2, hd2, ha2, hb2, hc2⟩ := h2
  rw [timepointTag, timepointTag] at heq
  injection heq with _ heq
  rw [removeHpi_digit_run d1 _ hd1, removeHpi_digit_run d2 _ hd2] at heq
  rcases removeHpi_triple a1 b1 c1 ha1 hb1 hc1 with ⟨e1, e2, e3, hr1⟩ | ⟨hr1, hne1d⟩ <;>
    rcases removeHpi_triple a2 b2 c2 ha2 hb2 hc2 with ⟨f1, f2, f3, hr2⟩ | ⟨hr2, hne2d⟩
  · rw [hr1, hr2, List.append_nil, List.append_nil] at heq
    rw [heq, e1, e2, e3, f1, f2, f3]
  · rw [hr1, hr2, List.append_nil] at heq
    exfalso
    have hmem : c2 ∈ d1 := by rw [heq]; simp
    have hdig := hd1 c2 hmem
    rcases hc2 with rfl | rfl <;> exact absurd hdig (by decide)
  · rw [hr1, hr2, List.append_nil] at heq
    exfalso
    have hmem : c1 ∈ d2 := by rw [← heq]; simp
    have hdig := hd2 c1 hmem
    rcases hc1 with rfl | rfl <;> exact absurd hdig (by decide)
  · rw [hr1, hr2] at heq
    exact heq

theorem signalClassifyLine_record (line : List Char) (r : SignalRecord)
    (h : signalClassifyLine line = .record r) : TpShape r.timepoint ∧ '_' ∉ r.source := by
  simp only [signalClassifyLine] at h
  by_cases he : (stripChars line).isEmpty = true
  · rw [if_pos he] at h
    cases h
  · rw [if_neg he] at h
    cases hm : signalMatch (basenameChars (stripChars line)) with
    | none => rw [hm] at h; cases h
    | some g =>
      obtain ⟨g1, tp, src, sid⟩ := g
      rw [hm] at h
      injection h with h
      obtain ⟨rest0, hmam⟩ := signalMatchAux_exists _ [] g1 tp src sid hm
      obtain ⟨hshape, hsrc⟩ := matchAfterMark_some rest0 tp src sid hmam
      constructor
      · rw [← h]
        exact hshape
      · rw [← h]
        exact hsrc

theorem mem_signalRecords (lines : List (List Char)) (r : SignalRecord)
    (h : r ∈ signalRecords lines) : ∃ l, signalClassifyLine l = .record r := by
  rw [signalRecords, List.mem_filterMap] at h
  obtain ⟨l, _, hsome⟩ := h
  cases hcl : signalClassifyLine l with
  | record r2 =>
    simp only [hcl] at hsome
    injection hsome with hsome
    exact ⟨l, by rw [hcl, hsome]⟩
  | blank =>
    simp only [hcl] at hsome
    cases hsome
  | badName fn =>
    simp only [hcl] at hsome
    cases hsome

theorem tfAfterSrc_tp (cap : List Char → Option (List Char)) :
    ∀ rest3 tp src0 tp2 src sid, tfAfterSrc cap tp src0 rest3 = some (tp2, src, sid) →
      tp2 = tp := by
  intro rest3
  cases rest3 with
  | nil =>
    intro tp src0 tp2 src sid h
    simp only [tfAfterSrc] at h
    cases h
  | cons c r =>
    intro tp src0 tp2 src sid h
    simp only [tfAfterSrc] at h
    by_cases hc : (c == '_') = true
    · rw [if_pos hc] at h
      cases hcap : cap r with
      | none => rw [hcap] at h; cases h
      | some sid0 =>
        rw [hcap] at h
        injection h with h
        exact (congrArg Prod.fst h).symm
    · rw [if_neg hc] at h
      cases h

theorem tfAfterTp_tp (cap : List Char → Option (List Char)) :
    ∀ rest tp tp2 src sid, tfAfterTp cap tp rest = some (tp2, src, sid) → tp2 = tp := by
  intro rest
  cases rest with
  | nil =>
    intro tp tp2 src sid h
    simp only [tfAfterTp] at h
    cases h
  | cons c rest2 =>
    intro tp tp2 src sid h
    simp only [tfAfterTp] at h
    by_cases hc : (c == '_') = true
    · rw [if_pos hc] at h
      by_cases hsrc : (rest2.takeWhile isAlnumChar).isEmpty = true
      · rw [if_pos hsrc] at h
        cases h
      · rw [if_neg hsrc] at h
        exact tfAfterSrc_tp cap _ tp _ tp2 src sid h
    · rw [if_neg hc] at h
      cases h

theorem tfAfterMark_shape (cap : List Char → Option (List Char)) (cs tp src sid : List Char)
    (h : tfAfterMark cap cs = some (tp, src, sid)) : TpShape tp := by
  rw [tfAfterMark] at h
  cases hm : matchDigitsHpi cs with
  | none => rw [hm] at h; cases h
  | some pr =>
    obtain ⟨tp0, rest0⟩ := pr
    rw [hm] at h
    have heq := tfAfterTp_tp cap rest0 tp0 tp src sid h
    rw [heq]
    exact matchDigitsHpi_some cs tp0 rest0 hm

theorem tfMatchAux_exists (cap : List Char → Option (List Char)) :
    ∀ cs acc g1 tp src sid, tfMatchAux cap acc cs = some (g1, tp, src, sid) →
      ∃ rest, tfAfterMark cap rest = some (tp, src, sid) := by
  intro cs
  induction cs with
  | nil =>
    intro acc g1 tp src sid h
    rw [tfMatchAux] at h
    cases h
  | cons c rest ih =>
    intro acc g1 tp src sid h
    rw [tfMatchAux] at h
    by_cases hc : (c == '_') = true
    · rw [if_pos hc] at h
      cases hm : tfAfterMark cap rest with
      | none => rw [hm] at h; exact ih (c :: acc) g1 tp src sid h
      | some t =>
        obtain ⟨tp0, src0, sid0⟩ := t
        rw [hm] at h
        injection h with h
        have h2 := congrArg (fun q => q.snd.fst) h
        have h3 := congrArg (fun q => q.snd.snd.fst) h
        have h4 := congrArg (fun q => q.snd.snd.snd) h
        simp only at h2 h3 h4
        rw [← h2, ← h3, ← h4]
        exact ⟨rest, hm⟩
    · rw [if_neg hc] at h
      exact ih (c :: acc) g1 tp src sid h

theorem tfClassifyLine_record (line : List Char) (r : TFRecord)
    (h : tfClassifyLine line = .record r) : TpShape r.timepoint := by
  simp only [tfClassifyLine] at h
  by_cases he : (stripChars line).isEmpty = true
  · rw [if_pos he] at h
    cases h
  · rw [if_neg he] at h
    by_cases h1 : endsWithCS (chars ".narrowPeak.bb") (basenameChars (stripChars line)) = true
    · rw [if_pos h1] at h
      cases hs : tfMatchStrict (chars ".narrowPeak.bb") (basenameChars (stripChars line)) with
      | some g =>
        obtain ⟨g1, tp, src, sid⟩ := g
        rw [hs] at h
        injection h with h
        obtain ⟨rest0, hr⟩ := tfMatchAux_exists _ _ [] g1 tp src sid hs
        rw [← h]
        exact tfAfterMark_shape _ rest0 tp src sid hr
      | none =>
        rw [hs] at h
        cases hrel : tfMatchRelaxed (chars ".narrowPeak.bb") (basenameChars (stripChars line)) with
        | some g =>
          obtain ⟨g1, tp, src, sid⟩ := g
          rw [hrel] at h
          injection h with h
          obtain ⟨rest0, hr⟩ := tfMatchAux_exists _ _ [] g1 tp src sid hrel
          rw [← h]
          exact tfAfterMark_shape _ rest0 tp src sid hr
        | none =>
          rw [hrel] at h
          cases h
    · rw [if_neg h1] at h
      by_cases h2 : endsWithCS (chars ".bw") (basenameChars (stripChars line)) = true
      · rw [if_pos h2] at h
        cases hs : tfMatchStrict (chars ".bw") (basenameChars (stripChars line)) with
        | some g =>
          obtain ⟨g1, tp, src, sid⟩ := g
          rw [hs] at h
          injection h with h
          obtain ⟨rest0, hr⟩ := tfMatchAux_exists _ _ [] g1 tp src sid hs
          rw [← h]
          exact tfAfterMark_shape _ rest0 tp src sid hr
        | none =>
          rw [hs] at h
          cases hrel : tfMatchRelaxed (chars ".bw") (basenameChars (stripChars line)) with
          | some g =>
            obtain ⟨g1, tp, src, sid⟩ := g
            rw [hrel] at h
            injection h with h
            obtain ⟨rest0, hr⟩ := tfMatchAux_exists _ _ [] g1 tp src sid hrel
            rw [← h]
            exact tfAfterMark_shape _ rest0 tp src sid hr
          | none =>
            rw [hrel] at h
            cases h
      · rw [if_neg h2] at h
        cases h

theorem mem_tfRecords (lines : List (List Char)) (r : TFRecord)
    (h : r ∈ tfRecords lines) : ∃ l, tfClassifyLine l = .record r := by
  rw [tfRecords, List.mem_filterMap] at h
  obtain ⟨l, _, hsome⟩ := h
  cases hcl : tfClassifyLine l with
  | record r2 =>
    simp only [hcl] at hsome
    injection hsome with hsome
    exact ⟨l, by rw [hcl, hsome]⟩
  | blank =>
    simp only [hcl] at hsome
    cases hsome
  | unknownType fn =>
    simp only [hcl] at hsome
    cases hsome
  | badName fn =>
    simp only [hcl] at hsome
    cases hsome

/-- C5 counterexample: the mark+source tag function is not injective over
an observed value set.  In a run whose list file names
`A_B_10hpi_C_x.bw` and `AB_10hpi_C_y.bw`, the two distinct observed keys
`A_B_C` and `AB_C` receive the same tag `msABC`, because the tag strips
non-alphanumeric characters. -/
theorem claim_c5_counterexample :
    (signalRecords [chars "A_B_10hpi_C_x.bw", chars "AB_10hpi_C_y.bw"]).map
        (fun r => r.markSourceKey) = [chars "A_B_C", chars "AB_C"]
    ∧ markSourceTag (chars "A_B_C") = markSourceTag (chars "AB_C")
    ∧ chars "A_B_C" ≠ chars "AB_C" :=
  ⟨by decide, by decide, by decide⟩

/-- C5 amended: the timepoint tag function is injective over the timepoint
values observed in any run (for both the signal and the TF category), and
the view tags are injective on the fixed view set; the composite
mark+source and factor+source tag functions are not injective in general
(see the counterexample). -/
theorem claim_c5_tag_injectivity :
    (∀ lines r1 r2, r1 ∈ signalRecords lines → r2 ∈ signalRecords lines →
      timepointTag r1.timepoint = timepointTag r2.timepoint → r1.timepoint = r2.timepoint)
    ∧ (∀ lines r1 r2, r1 ∈ tfRecords lines → r2 ∈ tfRecords lines →
      timepointTag r1.timepoint = timepointTag r2.timepoint → r1.timepoint = r2.timepoint)
    ∧ (∀ v1 v2 : ViewType, viewTag v1 = viewTag v2 → v1 = v2) := by
  refine ⟨?_, ?_, ?_⟩
  · intro lines r1 r2 h1 h2 htag
    obtain ⟨l1, hc1⟩ := mem_signalRecords lines r1 h1
    obtain ⟨l2, hc2⟩ := mem_signalRecords lines r2 h2
    exact tpShape_tag_inj _ _ (signalClassifyLine_record l1 r1 hc1).1
      (signalClassifyLine_record l2 r2 hc2).1 htag
  · intro lines r1 r2 h1 h2 htag
    obtain ⟨l1, hc1⟩ := mem_tfRecords lines r1 h1
    obtain ⟨l2, hc2⟩ := mem_tfRecords lines r2 h2
    exact tpShape_tag_inj _ _ (tfClassifyLine_record l1 r1 hc1)
      (tfClassifyLine_record l2 r2 hc2) htag
  · intro v1 v2 h
    cases v1 <;> cases v2 <;> first | rfl | exact absurd h (by decide)

/-- Witness for the amended C5 theorem at a concrete two-record run. -/
theorem claim_c5_tag_injectivity_witness :
    ({ filename := chars "M_10hpi_S_x.bw", mark := chars "M", timepoint := chars "10hpi",
       source := chars "S", sourceId := chars "x",
       markSourceKey := chars "M_S" } : SignalRecord).timepoint =
    ({ filename := chars "N_10hpi_T_y.bw", mark := chars "N", timepoint := chars "10hpi",
       source := chars "T", sourceId := chars "y",
       markSourceKey := chars "N_T" } : SignalRecord).timepoint :=
  claim_c5_tag_injectivity.1 [chars "M_10hpi_S_x.bw", chars "N_10hpi_T_y.bw"] _ _
    (by decide) (by decide) (by decide)

theorem signalRecords_cons_blank (line : List Char) (rest : List (List Char))
    (h : signalClassifyLine line = .blank) :
    signalRecords (line :: rest) = signalRecords rest := by
  simp [signalRecords, List.filterMap_cons, h]

theorem signalWarnings_cons_blank (line : List Char) (rest : List (List Char))
    (h : signalClassifyLine line = .blank) :
    signalWarnings (line :: rest) = signalWarnings rest := by
  simp [signalWarnings, List.filterMap_cons, h]

theorem tfRecords_cons_blank (line : List Char) (rest : List (List Char))
    (h : tfClassifyLine line = .blank) :
    tfRecords (line :: rest) = tfRecords rest := by
  simp [tfRecords, List.filterMap_cons, h]

theorem tfWarnings_cons_blank (line : List Char) (rest : List (List Char))
    (h : tfClassifyLine line = .blank) :
    tfWarnings (line :: rest) = tfWarnings rest := by
  simp [tfWarnings, List.filterMap_cons, h]

theorem chromItemsAux_cons_blank (b p : List Char) (prio : Nat) (line : List Char)
    (rest : List (List Char)) (h : chromClassifyLine line = .blank) :
    chromItemsAux b p prio (line :: rest) = chromItemsAux b p prio rest := by
  rw [chromItemsAux, h]

theorem blank_classify (line : List Char) (h : stripChars line = []) :
    signalClassifyLine line = .blank ∧ chromClassifyLine line = .blank ∧
      tfClassifyLine line = .blank := by
  refine ⟨?_, ?_, ?_⟩
  · simp [signalClassifyLine, h]
  · simp [chromClassifyLine, h]
  · simp [tfClassifyLine, h]

/-- C10: the timepoint binds to the leftmost underscore-delimited
`\d+hpi` token (the MARK capture is the shortest prefix admitting a full
match, so it may contain underscores, as in `A_B_10hpi_Lab_id.bw`); the
SOURCEID capture may contain underscores and dots; the SOURCE capture never
contains an underscore; and blank or whitespace-only lines are skipped
silently (no classification output and no change to any category's printed
output) in all three categories. -/
theorem claim_c10_parse_details :
    signalClassifyLine (chars "A_B_10hpi_Lab_id.bw") =
      .record { filename := chars "A_B_10hpi_Lab_id.bw", mark := chars "A_B",
                timepoint := chars "10hpi", source := chars "Lab", sourceId := chars "id",
                markSourceKey := chars "A_B_Lab" }
    ∧ signalClassifyLine (chars "M_10hpi_S_a_b.c.bw") =
      .record { filename := chars "M_10hpi_S_a_b.c.bw", mark := chars "M",
                timepoint := chars "10hpi", source := chars "S", sourceId := chars "a_b.c",
                markSourceKey := chars "M_S" }
    ∧ (∀ line r, signalClassifyLine line = .record r → '_' ∉ r.source)
    ∧ (∀ cs g1 tp src sid, signalMatch cs = some (g1, tp, src, sid) →
        ∀ m rr, cs = m ++ '_' :: rr → (matchAfterMark rr).isSome = true →
          g1.length ≤ m.length)
    ∧ (∀ line, stripChars line = [] →
        signalClassifyLine line = .blank ∧ chromClassifyLine line = .blank ∧
          tfClassifyLine line = .blank)
    ∧ (∀ line rest path b p, stripChars line = [] →
        signalOutput path (some (line :: rest)) b p = signalOutput path (some rest) b p ∧
        chromStateOutput path (some (line :: rest)) b p =
          chromStateOutput path (some rest) b p ∧
        tfOutput path (some (line :: rest)) b p = tfOutput path (some rest) b p) := by
  refine ⟨by decide, by decide, ?_, ?_, ?_, ?_⟩
  · intro line r h
    exact (signalClassifyLine_record line r h).2
  · intro cs g1 tp src sid h m rr hsplit hsome
    have := signalMatchAux_leftmost cs [] g1 tp src sid h m rr hsplit hsome
    simpa using this
  · exact blank_classify
  · intro line rest path b p h
    obtain ⟨hsig, hchrom, htf⟩ := blank_classify line h
    refine ⟨?_, ?_, ?_⟩
    · simp only [signalOutput, signalParentLines, signalSubGroup1Line, signalSubGroup2Line,
        signalSortedTimepoints, signalObservedTimepoints, signalSortedMarkSources,
        signalChildren, signalRecords_cons_blank line rest hsig,
        signalWarnings_cons_blank line rest hsig]
    · simp only [chromStateOutput, chromItems, chromItemsAux_cons_blank b p 1 line rest hchrom]
    · simp only [tfOutput, tfParentLines, tfSubGroup2Line, tfSubGroup3Line,
        tfSortedTimepoints, tfObservedTimepoints, tfSortedFactorSources, tfChildren,
        tfRecords_cons_blank line rest htf, tfWarnings_cons_blank line rest htf]

/-- Witness for C10 at a whitespace-only line. -/
theorem claim_c10_parse_details_witness :
    stripChars (chars "   ") = [] ∧ signalClassifyLine (chars "   ") = SigLine.blank :=
  ⟨by decide, (claim_c10_parse_details.2.2.2.2.1 (chars "   ") (by decide)).1⟩

theorem isEmpty_false_of_ne {α : Type} (l : List α) (h : l ≠ []) : l.isEmpty = false := by
  cases l with
  | nil => exact absurd rfl h
  | cons a l2 => rfl

/-- C9: TF line handling dispatches on the exact suffix first
(`.narrowPeak.bb` gives view Peaks, `.bw` gives view Signal, anything else
is a skip warning), then tries the strict pattern, then the relaxed
pattern, and warns only when both fail. -/
theorem claim_c9_tf_dispatch (line : List Char) :
    (stripChars line ≠ [] →
      endsWithCS (chars ".narrowPeak.bb") (basenameChars (stripChars line)) = false →
      endsWithCS (chars ".bw") (basenameChars (stripChars line)) = false →
      tfClassifyLine line = .unknownType (basenameChars (stripChars line)))
    ∧ (stripChars line ≠ [] →
        endsWithCS (chars ".narrowPeak.bb") (basenameChars (stripChars line)) = true →
        ((∀ g, tfMatchStrict (chars ".narrowPeak.bb") (basenameChars (stripChars line)) = some g →
            tfClassifyLine line = .record (mkTFRecord (basenameChars (stripChars line)) .Peaks g))
        ∧ (∀ g, tfMatchStrict (chars ".narrowPeak.bb") (basenameChars (stripChars line)) = none →
            tfMatchRelaxed (chars ".narrowPeak.bb") (basenameChars (stripChars line)) = some g →
            tfClassifyLine line = .record (mkTFRecord (basenameChars (stripChars line)) .Peaks g))
        ∧ (tfMatchStrict (chars ".narrowPeak.bb") (basenameChars (stripChars line)) = none →
            tfMatchRelaxed (chars ".narrowPeak.bb") (basenameChars (stripChars line)) = none →
            tfClassifyLine line = .badName (basenameChars (stripChars line)))))
    ∧ (stripChars line ≠ [] →
        endsWithCS (chars ".narrowPeak.bb") (basenameChars (stripChars line)) = false →
        endsWithCS (chars ".bw") (basenameChars (stripChars line)) = true →
        ((∀ g, tfMatchStrict (chars ".bw") (basenameChars (stripChars line)) = some g →
            tfClassifyLine line = .record (mkTFRecord (basenameChars (stripChars line)) .Signal g))
        ∧ (∀ g, tfMatchStrict (chars ".bw") (basenameChars (stripChars line)) = none →
            tfMatchRelaxed (chars ".bw") (basenameChars (stripChars line)) = some g →
            tfClassifyLine line = .record (mkTFRecord (basenameChars (stripChars line)) .Signal g))
        ∧ (tfMatchStrict (chars ".bw") (basenameChars (stripChars line)) = none →
            tfMatchRelaxed (chars ".bw") (basenameChars (stripChars line)) = none →
            tfClassifyLine line = .badName (basenameChars (stripChars line))))) := by
  refine ⟨?_, ?_, ?_⟩
  · intro hne h1 h2
    simp [tfClassifyLine, isEmpty_false_of_ne _ hne, h1, h2]
  · intro hne h1
    refine ⟨?_, ?_, ?_⟩
    · intro g hs
      simp [tfClassifyLine, isEmpty_false_of_ne _ hne, h1, hs]
    · intro g hs hrel
      simp [tfClassifyLine, isEmpty_false_of_ne _ hne, h1, hs, hrel]
    · intro hs hrel
      simp [tfClassifyLine, isEmpty_false_of_ne _ hne, h1, hs, hrel]
  · intro hne h1 h2
    refine ⟨?_, ?_, ?_⟩
    · intro g hs
      simp [tfClassifyLine, isEmpty_false_of_ne _ hne, h1, h2, hs]
    · intro g hs hrel
      simp [tfClassifyLine, isEmpty_false_of_ne _ hne, h1, h2, hs, hrel]
    · intro hs hrel
      simp [tfClassifyLine, isEmpty_false_of_ne _ hne, h1, h2, hs, hrel]

/-- Witness for C9: a Signal line matched by the strict pattern and an
unknown-suffix line. -/
theorem claim_c9_tf_dispatch_witness :
    tfClassifyLine (chars "AP2_10hpi_Lab_unpublished.bw") =
      TFLine.record (mkTFRecord (chars "AP2_10hpi_Lab_unpublished.bw") .Signal
        (chars "AP2", chars "10hpi", chars "Lab", chars "unpublished"))
    ∧ tfClassifyLine (chars "AP2_10hpi_Lab_x.txt") =
        TFLine.unknownType (chars "AP2_10hpi_Lab_x.txt") :=
  ⟨((claim_c9_tf_dispatch (chars "AP2_10hpi_Lab_unpublished.bw")).2.2 (by decide) (by decide)
      (by decide)).1 _ (by decide),
   (claim_c9_tf_dispatch (chars "AP2_10hpi_Lab_x.txt")).1 (by decide) (by decide) (by decide)⟩

theorem isCommentLine_hash (s : List Char) : isCommentLine ('#' :: s) = true := rfl

theorem isTrackLine_hash (s : List Char) : isTrackLine ('#' :: s) = false := rfl

theorem not_trackLine_of_comment (l : List Char) (h : isCommentLine l = true) :
    isTrackLine l = false := by
  cases l with
  | nil => exact absurd h (by decide)
  | cons c rest =>
    by_cases hc : c = '#'
    · rw [hc]
      exact isTrackLine_hash rest
    · exfalso
      apply hc
      unfold isCommentLine at h
      split at h
      · rename_i heq
        injection heq
      · cases h

theorem all_comment_declBlockCount (out : List (List Char))
    (h : out.all isCommentLine = true) : declBlockCount out = 0 := by
  induction out with
  | nil => rfl
  | cons l rest ih =>
    rw [List.all_cons, Bool.and_eq_true] at h
    rw [declBlockCount, List.filter_cons, if_neg]
    · exact ih h.2
    · rw [not_trackLine_of_comment l h.1]
      simp

theorem signalWarnings_comments (lines : List (List Char)) :
    (signalWarnings lines).all isCommentLine = true := by
  induction lines with
  | nil => rfl
  | cons l rest ih =>
    cases hcl : signalClassifyLine l with
    | badName fn =>
      simp only [signalWarnings, List.filterMap_cons, hcl, List.all_cons, Bool.and_eq_true]
      exact ⟨isCommentLine_hash _, ih⟩
    | blank => simp only [signalWarnings, List.filterMap_cons, hcl]; exact ih
    | record r => simp only [signalWarnings, List.filterMap_cons, hcl]; exact ih

theorem tfWarnings_comments (lines : List (List Char)) :
    (tfWarnings lines).all isCommentLine = true := by
  induction lines with
  | nil => rfl
  | cons l rest ih =>
    cases hcl : tfClassifyLine l with
    | badName fn =>
      simp only [tfWarnings, List.filterMap_cons, hcl, List.all_cons, Bool.and_eq_true]
      exact ⟨isCommentLine_hash _, ih⟩
    | unknownType fn =>
      simp only [tfWarnings, List.filterMap_cons, hcl, List.all_cons, Bool.and_eq_true]
      exact ⟨isCommentLine_hash _, ih⟩
    | blank => simp only [tfWarnings, List.filterMap_cons, hcl]; exact ih
    | record r => simp only [tfWarnings, List.filterMap_cons, hcl]; exact ih

theorem isPrefixCS_append_self : ∀ s t : List Char, isPrefixCS s (s ++ t) = true := by
  intro s
  induction s with
  | nil => intro t; rfl
  | cons c rest ih =>
    intro t
    rw [List.cons_append, isPrefixCS]
    simp [ih t]

theorem chromItems_comments (p : List Char) (items : List ChromItem)
    (h : ∀ it ∈ items, ∀ c, it ≠ ChromItem.child c) :
    ((items.map (chromItemLines p)).flatten).all isCommentLine = true := by
  induction items with
  | nil => rfl
  | cons it rest ih =>
    rw [List.map_cons, List.flatten_cons, List.all_append, Bool.and_eq_true]
    refine ⟨?_, ih (fun it2 hm => h it2 (List.mem_cons_of_mem it hm))⟩
    cases it with
    | warn fn =>
      simp only [chromItemLines, List.all_cons, List.all_nil, Bool.and_true]
      exact isCommentLine_hash _
    | child c => exact absurd rfl (h (ChromItem.child c) (List.mem_cons_self _ _) c)

theorem chromItems_no_child (lines : List (List Char)) (b p : List Char)
    (h : chromChildren lines b p = []) :
    ∀ it ∈ chromItems lines b p, ∀ c, it ≠ ChromItem.child c := by
  intro it hm c heq
  subst heq
  have hmem : c ∈ chromChildren lines b p := by
    rw [chromChildren, List.mem_filterMap]
    exact ⟨ChromItem.child c, hm, rfl⟩
  rw [h] at hmem
  simp at hmem

/-- C1 counterexample: for the chromatin-state category a missing list
file does NOT lead to diagnostics only: the parent composite declaration
block is printed unconditionally before the file is opened, so the output
for a missing file contains one `track` declaration line and is not all
comments. -/
theorem claim_c1_counterexample :
    declBlockCount (chromStateOutput (chars "chrom_list.txt") none (chars "http://u")
      (chars "PfalChromStates")) = 1
    ∧ ((chromStateOutput (chars "chrom_list.txt") none (chars "http://u")
        (chars "PfalChromStates")).all isCommentLine) = false :=
  ⟨by decide, by decide⟩

/-- C1 amended: for the signal and TF categories a missing list file or a
parse pass with zero valid records yields only comment lines and no
declaration blocks (an empty signal list gives exactly the section header
plus one diagnostic line); the chromatin-state category instead always
prints its parent composite block — a missing file or a childless run
still emits exactly that one declaration block. -/
theorem claim_c1_empty_category :
    (∀ path b p : List Char,
      (signalOutput path none b p).all isCommentLine = true ∧
        declBlockCount (signalOutput path none b p) = 0)
    ∧ (∀ (path : List Char) (lines : List (List Char)) (b p : List Char),
        signalRecords lines = [] →
        (signalOutput path (some lines) b p).all isCommentLine = true ∧
          declBlockCount (signalOutput path (some lines) b p) = 0)
    ∧ (∀ path b p : List Char, signalOutput path (some []) b p =
        [chars "# --- Histone Mark / Signal Tracks (with Subgroups) ---",
         chars "# No valid signal track data found in " ++ path])
    ∧ (∀ path b p : List Char,
        (tfOutput path none b p).all isCommentLine = true ∧
          declBlockCount (tfOutput path none b p) = 0)
    ∧ (∀ (path : List Char) (lines : List (List Char)) (b p : List Char),
        tfRecords lines = [] →
        (tfOutput path (some lines) b p).all isCommentLine = true ∧
          declBlockCount (tfOutput path (some lines) b p) = 0)
    ∧ (∀ path b p : List Char, declBlockCount (chromStateOutput path none b p) = 1)
    ∧ (∀ (path : List Char) (lines : List (List Char)) (b p : List Char),
        chromChildren lines b p = [] →
        declBlockCount (chromStateOutput path (some lines) b p) = 1) := by
  have htrackp : ∀ p : List Char, isTrackLine (chars "track " ++ p) = true := by
    intro p
    simp [isTrackLine, isPrefixCS_append_self]
  have e1 : isTrackLine (chars "# --- Chromatin State Tracks ---") = false := rfl
  have e2 : isTrackLine (chars "compositeTrack on") = false := rfl
  have e3 : isTrackLine (chars "shortLabel IDC Chromatin States") = false := rfl
  have e4 : isTrackLine (chars "longLabel P. falciparum chromatin states during the IDC") =
      false := rfl
  have e5 : isTrackLine (chars "type bigBed") = false := rfl
  have e6 : isTrackLine (chars "visibility dense") = false := rfl
  have e7 : isTrackLine (chars "") = false := rfl
  refine ⟨?_, ?_, ?_, ?_, ?_, ?_, ?_⟩
  · intro path b p
    exact ⟨rfl, rfl⟩
  · intro path lines b p hrec
    have hout : signalOutput path (some lines) b p =
        chars "# --- Histone Mark / Signal Tracks (with Subgroups) ---" ::
          (signalWarnings lines ++ [chars "# No valid signal track data found in " ++ path]) := by
      simp [signalOutput, hrec]
    have hall : (signalOutput path (some lines) b p).all isCommentLine = true := by
      rw [hout, List.all_cons, List.all_append, Bool.and_eq_true, Bool.and_eq_true]
      exact ⟨rfl, signalWarnings_comments lines, rfl⟩
    exact ⟨hall, all_comment_declBlockCount _ hall⟩
  · intro path b p
    rfl
  · intro path b p
    exact ⟨rfl, rfl⟩
  · intro path lines b p hrec
    have hout : tfOutput path (some lines) b p =
        chars "# --- Transcription Factor (TF) Tracks (with combined Factor_Source subgroup) ---" ::
          (tfWarnings lines ++ [chars "# No valid TF track data found in " ++ path]) := by
      simp [tfOutput, hrec]
    have hall : (tfOutput path (some lines) b p).all isCommentLine = true := by
      rw [hout, List.all_cons, List.all_append, Bool.and_eq_true, Bool.and_eq_true]
      exact ⟨rfl, tfWarnings_comments lines, rfl⟩
    exact ⟨hall, all_comment_declBlockCount _ hall⟩
  · intro path b p
    have herr : isTrackLine (chars "# Error: Input file not found at " ++ path) = false := rfl
    simp only [chromStateOutput, declBlockCount, List.filter_cons, List.filter_nil, htrackp p,
      herr, e1, e2, e3, e4, e5, e6, e7, Bool.false_eq_true, if_false, if_true,
      eq_self_iff_true]
    rfl
  · intro path lines b p hchild
    have hbody : (((chromItems lines b p).map (chromItemLines p)).flatten).all
        isCommentLine = true :=
      chromItems_comments p _ (chromItems_no_child lines b p hchild)
    have hbody0 : declBlockCount
        (((chromItems lines b p).map (chromItemLines p)).flatten) = 0 :=
      all_comment_declBlockCount _ hbody
    rw [declBlockCount] at hbody0
    simp only [chromStateOutput, declBlockCount, List.filter_cons, htrackp p,
      e1, e2, e3, e4, e5, e6, e7, Bool.false_eq_true, if_false, if_true, eq_self_iff_true]
    rw [List.length_cons, hbody0]

/-- Witness for the amended C1 theorem at a concrete record-free input. -/
theorem claim_c1_empty_category_witness :
    signalRecords [chars "garbage.txt"] = []
    ∧ (signalOutput (chars "f.txt") (some [chars "garbage.txt"]) (chars "u")
        (chars "P")).all isCommentLine = true :=
  ⟨by decide, (claim_c1_empty_category.2.1 (chars "f.txt") [chars "garbage.txt"] (chars "u")
    (chars "P") (by decide)).1⟩
